import Mathlib

/-!
Verification development for the sleeper-player-database collection engine.

The Python sources are embedded shallowly:
* `scripts/collect_byline_data.py` — name/team/position normalizers, the
  `difflib.SequenceMatcher`-based similarity scorer, and the three-strategy
  matching phase of `generate_integrated_database`.
* `scripts/collect_nfl_performance.py` — `update_season_totals` and
  `_calculate_half_ppr`.

Modelling conventions:
* Python strings are `List Char` / `String`; `str.lower`/`str.upper` are
  modelled on the ASCII range (player data is ASCII).
* Python floats are modelled as exact rationals `ℚ`; `round(x, 2)` is
  round-half-to-even at two decimals on `ℚ`.
* Python dicts preserve insertion order, so they are association lists;
  Python sets (`unmatched_sleeper`, `unmatched_adp`) are `Nodup` lists and
  their (implementation-defined) iteration order is the order of the list.
* Bounded recursion uses explicit fuel sized so it never runs out, keeping
  every definition kernel-reducible.
-/

set_option maxRecDepth 100000
set_option maxHeartbeats 2000000

/-! ### Character and whitespace utilities (Python `str` semantics) -/

/-- Whitespace characters matched by Python's `str.strip` / regex `\s` (ASCII). -/
def isPySpace (c : Char) : Bool :=
  c = ' ' || c = '\t' || c = '\n' || c = '\r' || c = Char.ofNat 11 || c = Char.ofNat 12

/-- ASCII lower-casing, the effect of Python `str.lower` on the data domain. -/
def pyLowerChar (c : Char) : Char :=
  if 65 ≤ c.toNat ∧ c.toNat ≤ 90 then Char.ofNat (c.toNat + 32) else c

/-- ASCII upper-casing, the effect of Python `str.upper` on the data domain. -/
def pyUpperChar (c : Char) : Char :=
  if 97 ≤ c.toNat ∧ c.toNat ≤ 122 then Char.ofNat (c.toNat - 32) else c

/-- Remove trailing whitespace (structural helper for `pyStrip`). -/
def dropTrailing : List Char → List Char
  | [] => []
  | c :: cs =>
    let r := dropTrailing cs
    if r = [] ∧ isPySpace c then [] else c :: r

/-- Python `str.strip`: drop leading and trailing whitespace. -/
def pyStrip (l : List Char) : List Char :=
  dropTrailing (l.dropWhile isPySpace)

/-- Helper for `collapseWs`; the flag records whether the previous character
was part of a whitespace run already replaced by a single space. -/
def collapseAux : Bool → List Char → List Char
  | _, [] => []
  | prevSpace, c :: cs =>
    if isPySpace c then
      if prevSpace then collapseAux true cs else ' ' :: collapseAux true cs
    else c :: collapseAux false cs

/-- Python `re.sub(r'\s+', ' ', l)`: each maximal whitespace run becomes one space. -/
def collapseWs (l : List Char) : List Char :=
  collapseAux false l

/-- Python `str.split()` (no argument): whitespace-delimited tokens, empties dropped.
`acc` holds the current token reversed. -/
def splitWsAux : List Char → List Char → List (List Char)
  | acc, [] => if acc = [] then [] else [acc.reverse]
  | acc, c :: cs =>
    if isPySpace c then
      if acc = [] then splitWsAux [] cs else acc.reverse :: splitWsAux [] cs
    else splitWsAux (c :: acc) cs

/-- Python `str.split()` on a character list. -/
def splitWs (l : List Char) : List (List Char) :=
  splitWsAux [] l

/-! ### Python `str.replace` and substring occurrence -/

/-- Fueled worker for `replaceL`.  Each step consumes at least one character of
the subject (patterns are nonempty), so fuel `l.length` always suffices. -/
def replaceLF (p r : List Char) : Nat → List Char → List Char
  | 0, l => l
  | _ + 1, [] => []
  | fuel + 1, c :: cs =>
    if p ≠ [] ∧ p.isPrefixOf (c :: cs) then
      r ++ replaceLF p r fuel ((c :: cs).drop p.length)
    else c :: replaceLF p r fuel cs

/-- Python `str.replace(p, r)`: replace every non-overlapping occurrence of `p`,
scanning left to right. -/
def replaceL (p r l : List Char) : List Char :=
  replaceLF p r l.length l

/-- `containsSub p l` holds when `p` occurs as a contiguous substring of `l`. -/
def containsSub (p : List Char) : List Char → Bool
  | [] => p.isPrefixOf []
  | c :: cs => p.isPrefixOf (c :: cs) || containsSub p cs

/-! ### Normalizers (`collect_byline_data.py` lines 436-495) -/

/-- The ordered replacement table of `normalize_name` (a Python dict literal;
dicts iterate in insertion order). -/
def nameReplacements : List (List Char × List Char) :=
  [("jr.".toList, "".toList), ("sr.".toList, "".toList), ("iii".toList, "".toList),
   ("ii".toList, "".toList), ("iv".toList, "".toList), (".".toList, "".toList),
   ("'".toList, "".toList), ("-".toList, " ".toList), ("dj".toList, "d.j.".toList),
   ("cj".toList, "c.j.".toList), ("aj".toList, "a.j.".toList), ("tj".toList, "t.j.".toList),
   ("jj".toList, "j.j.".toList), ("bj".toList, "b.j.".toList), ("rj".toList, "r.j.".toList),
   ("pj".toList, "p.j.".toList)]

/-- Apply the sixteen `normalize_name` replacements in table order. -/
def applyNameReplacements (l : List Char) : List Char :=
  nameReplacements.foldl (fun acc pr => replaceL pr.1 pr.2 acc) l

/-- The first eleven replacement rules with the five suffix-stripping rules
(`jr.`, `sr.`, `iii`, `ii`, `iv`) removed; used to state what `normalize_name`
does on inputs free of suffix patterns. -/
def nonSuffixReplacements : List (List Char × List Char) :=
  [(".".toList, "".toList), ("'".toList, "".toList), ("-".toList, " ".toList),
   ("dj".toList, "d.j.".toList), ("cj".toList, "c.j.".toList), ("aj".toList, "a.j.".toList),
   ("tj".toList, "t.j.".toList), ("jj".toList, "j.j.".toList), ("bj".toList, "b.j.".toList),
   ("rj".toList, "r.j.".toList), ("pj".toList, "p.j.".toList)]

/-- Apply only the non-suffix replacement rules, in the same relative order. -/
def applyNonSuffixReplacements (l : List Char) : List Char :=
  nonSuffixReplacements.foldl (fun acc pr => replaceL pr.1 pr.2 acc) l

/-- `normalize_name` on character lists:
`name.lower().strip()`, the replacement table, then `re.sub(r'\s+', ' ', ·).strip()`. -/
def normalizeNameL (l : List Char) : List Char :=
  pyStrip (collapseWs (applyNameReplacements (pyStrip (l.map pyLowerChar))))

/-- `BylineDataCollector.normalize_name` (lines 436-449).  `if not name: return ""`
is the `[]` case of the list pipeline. -/
def normalize_name (s : String) : String :=
  String.mk (normalizeNameL s.toList)

/-- The position alias table of `normalize_position` (lines 455-462), in
insertion order. -/
def posMappings : List (String × List String) :=
  [("K", ["K", "PK", "KICKER"]),
   ("DEF", ["DEF", "DST", "D/ST", "DEFENSE"]),
   ("QB", ["QB", "QUARTERBACK"]),
   ("RB", ["RB", "RUNNINGBACK"]),
   ("WR", ["WR", "WIDE RECEIVER"]),
   ("TE", ["TE", "TIGHT END"])]

/-- `BylineDataCollector.normalize_position` (lines 451-467). -/
def normalize_position (position : String) : String :=
  if position = "" then ""
  else
    let posUpper := String.mk (pyStrip (position.toList.map pyUpperChar))
    match posMappings.find? (fun m => m.2.contains posUpper) with
    | some m => m.1
    | none => posUpper

/-- The team alias table of `normalize_team` (lines 474-480), in insertion order. -/
def teamMappings : List (String × List String) :=
  [("KC", ["KC", "KAN"]), ("LV", ["LV", "LVR", "OAK", "RAI"]),
   ("LAC", ["LAC", "SD", "SDG"]), ("LAR", ["LAR", "LA", "STL"]),
   ("WAS", ["WAS", "WSH"]), ("NE", ["NE", "NEP"]), ("NO", ["NO", "NOS"]),
   ("GB", ["GB", "GBP"]), ("TB", ["TB", "TBB"]), ("SF", ["SF", "SFO"]),
   ("JAX", ["JAX", "JAC"]), ("ARI", ["ARI", "ARZ"])]

/-- `BylineDataCollector.normalize_team` (lines 469-485). -/
def normalize_team (team : String) : String :=
  if team = "" then ""
  else
    let teamUpper := String.mk (pyStrip (team.toList.map pyUpperChar))
    match teamMappings.find? (fun m => m.2.contains teamUpper) with
    | some m => m.1
    | none => teamUpper

/-- `BylineDataCollector.teams_match` (lines 487-490). -/
def teams_match (team1 team2 : String) : Bool :=
  normalize_team team1 = normalize_team team2 ∧ normalize_team team1 ≠ ""

/-- `BylineDataCollector.positions_match` (lines 492-495). -/
def positions_match (pos1 pos2 : String) : Bool :=
  normalize_position pos1 = normalize_position pos2 ∧ normalize_position pos1 ≠ ""

/-! ### Similarity scorer (`difflib.SequenceMatcher` and
`calculate_name_similarity`, lines 497-516)

`SequenceMatcher.ratio()` over short strings (no junk, autojunk inactive):
`2*T/(len(a)+len(b))` where `T` totals the sizes of the matching blocks.
`find_longest_match` returns the longest matching block, ties broken by the
earliest start in `a`, then the earliest start in `b`; `get_matching_blocks`
recurses on the pieces to the left and to the right of that block. -/

/-- Length of the longest common prefix of two character lists. -/
def commonPrefixLen : List Char → List Char → Nat
  | a :: as, b :: bs => if a = b then commonPrefixLen as bs + 1 else 0
  | _, _ => 0

/-- `find_longest_match` over whole lists: the `(i, j, k)` maximizing the run
length `k` of `a[i:i+k] == b[j:j+k]`, ties broken by least `i`, then least `j`
(strict `>` in the fold updates only on improvement). -/
def bestBlock (a b : List Char) : Nat × Nat × Nat :=
  (List.range a.length).foldl (fun acc i =>
    (List.range b.length).foldl (fun acc2 j =>
      let k := commonPrefixLen (a.drop i) (b.drop j)
      if k > acc2.2.2 then (i, j, k) else acc2) acc) (0, 0, 0)

/-- Fueled worker for `matchTotal`: total size of all matching blocks
(`get_matching_blocks` recursion). Each recursive call strictly shrinks the
`a`-side, so fuel `a.length + 1` always suffices. -/
def matchTotalF : Nat → List Char → List Char → Nat
  | 0, _, _ => 0
  | fuel + 1, a, b =>
    let t := bestBlock a b
    if t.2.2 = 0 then 0
    else matchTotalF fuel (a.take t.1) (b.take t.2.1) + t.2.2 +
      matchTotalF fuel (a.drop (t.1 + t.2.2)) (b.drop (t.2.1 + t.2.2))

/-- Total matched size `T` of `SequenceMatcher(None, a, b)`. -/
def matchTotal (a b : List Char) : Nat :=
  matchTotalF (a.length + 1) a b

/-- `SequenceMatcher.ratio()`: `2*T/(len(a)+len(b))`, and `1.0` when both empty. -/
def ratioQ (a b : List Char) : ℚ :=
  if a.length + b.length = 0 then 1
  else (2 * matchTotal a b : ℚ) / (a.length + b.length : ℚ)

/-- Python builtin `min` on two rationals (kernel-reducible). -/
def pyMin (a b : ℚ) : ℚ :=
  if a ≤ b then a else b

/-- `BylineDataCollector.calculate_name_similarity` (lines 497-516): normalize
both names; `0.0` if either is empty, `1.0` on equality; otherwise the
`SequenceMatcher` ratio plus `+0.2` for an equal final token and `+0.1` for an
equal first token, clamped to `1.0`. -/
def calculate_name_similarity (name1 name2 : String) : ℚ :=
  let norm1 := normalize_name name1
  let norm2 := normalize_name name2
  if norm1 = "" ∨ norm2 = "" then 0
  else if norm1 = norm2 then 1
  else
    let similarity := ratioQ norm1.toList norm2.toList
    let words1 := splitWs norm1.toList
    let words2 := splitWs norm2.toList
    let similarity :=
      if words1 ≠ [] ∧ words2 ≠ [] ∧ words1.getLast? = words2.getLast? then
        similarity + 2/10
      else similarity
    let similarity :=
      if words1 ≠ [] ∧ words2 ≠ [] ∧ words1.head? = words2.head? then
        similarity + 1/10
      else similarity
    pyMin similarity 1

/-! ### Match engine (`generate_integrated_database`, lines 536-638)

The matching phase consumes the Sleeper player dict (primary set) and the
consolidated ADP player dict (candidate set).  Dicts are association lists in
iteration order; the `unmatched_sleeper` / `unmatched_adp` sets are lists of
keys (their Python iteration order is implementation-defined; the embedding
fixes it to key order).  The `matches` dict becomes the ordered list of
produced links. -/

/-- A Sleeper identity record: the fields of `players[sleeper_id]` that the
matching phase reads (`full_name`, `team`, `position`). -/
structure SleeperPlayer where
  full_name : String
  team : String
  position : String
deriving DecidableEq

/-- An ADP identity record: the fields of `adp_data[adp_id]` that the matching
phase reads (`name`, `team`, `position`). -/
structure AdpPlayer where
  name : String
  team : String
  position : String
deriving DecidableEq

/-- The `match_type` provenance tag of a produced match. -/
inductive MatchStrategy where
  | exact_name_team_position
  | exact_name_position
  | fuzzy_name_position
deriving DecidableEq

/-- One entry of the `matches` dict: primary key, matched candidate key,
`confidence`, `match_type`. -/
structure MatchLink where
  primaryId : String
  candidateId : String
  confidence : ℚ
  strategy : MatchStrategy
deriving DecidableEq

/-- The mutable state of one resolution pass: the `matches` accumulated so far
(in insertion order) and the two unmatched key pools. -/
structure MatchState where
  links : List MatchLink
  unmatchedSleeper : List String
  unmatchedAdp : List String
deriving DecidableEq

/-- First-match lookup in an association list (`d[k]` on a Python dict). -/
def lookupAssoc {α : Type} (l : List (String × α)) (k : String) : Option α :=
  (l.find? (fun a => a.1 = k)).map (fun a => a.2)

/-- Record a found match: append the link (`matches[sleeper_id] = ...`) and
discard both keys from the unmatched pools; `none` leaves the state unchanged. -/
def applyFound (pid : String) (found : Option (String × ℚ × MatchStrategy))
    (st : MatchState) : MatchState :=
  match found with
  | none => st
  | some (cid, conf, strat) =>
    { links := st.links ++ [⟨pid, cid, conf, strat⟩]
      unmatchedSleeper := st.unmatchedSleeper.erase pid
      unmatchedAdp := st.unmatchedAdp.erase cid }

/-- Strategy 1 inner loop (lines 549-566): the first still-unmatched ADP entry
in dict order with equal normalized name, matching team and matching position. -/
def strategy1Find (adp : List (String × AdpPlayer)) (unmatchedAdp : List String)
    (sp : SleeperPlayer) : Option String :=
  let sleeperName := normalize_name sp.full_name
  let sleeperTeam := normalize_team sp.team
  let sleeperPos := normalize_position sp.position
  (adp.find? (fun a =>
    unmatchedAdp.contains a.1 &&
    (decide (normalize_name a.2.name = sleeperName) &&
     (teams_match sleeperTeam (normalize_team a.2.team) &&
      positions_match sleeperPos (normalize_position a.2.position))))).map (fun a => a.1)

/-- Strategy 1 (lines 543-566): exact name + team + position, confidence `1.0`. -/
def strategy1Pass (players : List (String × SleeperPlayer))
    (adp : List (String × AdpPlayer)) (st : MatchState) : MatchState :=
  players.foldl (fun st2 p =>
    applyFound p.1 ((strategy1Find adp st2.unmatchedAdp p.2).map
      (fun cid => (cid, (1 : ℚ), MatchStrategy.exact_name_team_position))) st2) st

/-- Strategy 2 inner loop (lines 580-594): the first still-unmatched ADP key
whose record has equal normalized name and matching position (team ignored). -/
def strategy2Find (adp : List (String × AdpPlayer)) (unmatchedAdp : List String)
    (sleeperName sleeperPos : String) : Option String :=
  unmatchedAdp.find? (fun aid =>
    match lookupAssoc adp aid with
    | some ap =>
      decide (normalize_name ap.name = sleeperName) &&
        positions_match sleeperPos (normalize_position ap.position)
    | none => false)

/-- Strategy 2 (lines 571-594): exact name + position over the still-unmatched
primaries, confidence `0.9`; primaries with an empty normalized name are skipped. -/
def strategy2Pass (players : List (String × SleeperPlayer))
    (adp : List (String × AdpPlayer)) (st : MatchState) : MatchState :=
  st.unmatchedSleeper.foldl (fun st2 sid =>
    match lookupAssoc players sid with
    | none => st2
    | some sp =>
      let sleeperName := normalize_name sp.full_name
      let sleeperPos := normalize_position sp.position
      if sleeperName = "" then st2
      else
        applyFound sid ((strategy2Find adp st2.unmatchedAdp sleeperName sleeperPos).map
          (fun cid => (cid, (9/10 : ℚ), MatchStrategy.exact_name_position))) st2) st

/-- One iteration of the strategy 3 inner loop (lines 612-626): skip candidates
with an incompatible position, score the rest, and keep a candidate whose
similarity is `≥ 0.75` and strictly beats the best score so far. -/
def s3step (adp : List (String × AdpPlayer)) (sleeperName sleeperPos : String)
    (acc : Option String × ℚ) (aid : String) : Option String × ℚ :=
  match lookupAssoc adp aid with
  | none => acc
  | some ap =>
    if positions_match sleeperPos (normalize_position ap.position) = false then acc
    else
      let similarity := calculate_name_similarity sleeperName ap.name
      if 3/4 ≤ similarity ∧ acc.2 < similarity then (some aid, similarity) else acc

/-- Strategy 3 inner loop (lines 608-626): scan the still-unmatched candidates
(`best_match`, `best_score`, `best_adp_id` start as `None`, `0.0`, `None`). -/
def strategy3Best (adp : List (String × AdpPlayer)) (unmatchedAdp : List String)
    (sleeperName sleeperPos : String) : Option String × ℚ :=
  unmatchedAdp.foldl (s3step adp sleeperName sleeperPos) (none, 0)

/-- Strategy 3 acceptance (lines 628-636): keep the best candidate when one was
found and its score clears the `0.75` threshold. -/
def strategy3Select (adp : List (String × AdpPlayer)) (unmatchedAdp : List String)
    (sleeperName sleeperPos : String) : Option (String × ℚ) :=
  match (strategy3Best adp unmatchedAdp sleeperName sleeperPos).1 with
  | some aid =>
    if 3/4 ≤ (strategy3Best adp unmatchedAdp sleeperName sleeperPos).2 then
      some (aid, (strategy3Best adp unmatchedAdp sleeperName sleeperPos).2)
    else none
  | none => none

/-- Strategy 3 (lines 599-636): fuzzy name + position over the still-unmatched
primaries; confidence is the similarity score.  Primaries with an empty raw
`full_name` are skipped. -/
def strategy3Pass (players : List (String × SleeperPlayer))
    (adp : List (String × AdpPlayer)) (st : MatchState) : MatchState :=
  st.unmatchedSleeper.foldl (fun st2 sid =>
    match lookupAssoc players sid with
    | none => st2
    | some sp =>
      if sp.full_name = "" then st2
      else
        let sleeperPos := normalize_position sp.position
        applyFound sid ((strategy3Select adp st2.unmatchedAdp sp.full_name sleeperPos).map
          (fun r => (r.1, r.2, MatchStrategy.fuzzy_name_position))) st2) st

/-- One full resolution pass of `generate_integrated_database` (lines 536-638):
the three strategies in order, starting from all keys unmatched. -/
def resolvePass (players : List (String × SleeperPlayer))
    (adp : List (String × AdpPlayer)) : MatchState :=
  strategy3Pass players adp (strategy2Pass players adp (strategy1Pass players adp
    ⟨[], players.map Prod.fst, adp.map Prod.fst⟩))

/-! ### Aggregation engine (`collect_nfl_performance.py`)

`update_season_totals` (lines 507-554) folds one weekly `player_performance`
record into `self.totals_data[player_key]`.  The per-category stat dicts have a
fixed key set (built in `process_week_data`, lines 450-474), so they are
records here: integer stats from `_safe_int`, fantasy point values from
`_safe_float_rounded` / `_calculate_half_ppr`.  Python `round(x, 2)` is
round-half-to-even at two decimal places (exact on `ℚ` in this model). -/

/-- Nearest integer, ties to even (Python builtin `round` to 0 digits). -/
def roundHalfEven (q : ℚ) : ℤ :=
  if q - q.floor < 1/2 then q.floor
  else if 1/2 < q - q.floor then q.floor + 1
  else if q.floor % 2 = 0 then q.floor else q.floor + 1

/-- Python `round(x, 2)`. -/
def pyRound2 (q : ℚ) : ℚ :=
  (roundHalfEven (q * 100) : ℚ) / 100

/-- `passing` stat group of one weekly record (values from `_safe_int`,
`None` = absent). -/
structure PassingStats where
  completions : Option Int
  attempts : Option Int
  yards : Option Int
  touchdowns : Option Int
  interceptions : Option Int
deriving DecidableEq

/-- `rushing` stat group of one weekly record. -/
structure RushingStats where
  carries : Option Int
  yards : Option Int
  touchdowns : Option Int
deriving DecidableEq

/-- `receiving` stat group of one weekly record. -/
structure ReceivingStats where
  targets : Option Int
  receptions : Option Int
  yards : Option Int
  touchdowns : Option Int
deriving DecidableEq

/-- `fantasy` point values of one weekly record, one per scoring convention. -/
structure FantasyPoints where
  points_standard : Option ℚ
  points_ppr : Option ℚ
  points_half_ppr : Option ℚ
deriving DecidableEq

/-- The `stats` sub-record of one weekly `player_performance`. -/
structure PlayerStats where
  passing : PassingStats
  rushing : RushingStats
  receiving : ReceivingStats
  fantasy : FantasyPoints
deriving DecidableEq

/-- One weekly `player_performance` record, restricted to the fields
`update_season_totals` reads. -/
structure PlayerPerformance where
  player_name : String
  position : String
  stats : PlayerStats
deriving DecidableEq

/-- Cumulative `season_totals['passing']` sums. -/
structure PassingTotals where
  completions : Int
  attempts : Int
  yards : Int
  touchdowns : Int
  interceptions : Int
deriving DecidableEq

/-- Cumulative `season_totals['rushing']` sums. -/
structure RushingTotals where
  carries : Int
  yards : Int
  touchdowns : Int
deriving DecidableEq

/-- Cumulative `season_totals['receiving']` sums. -/
structure ReceivingTotals where
  targets : Int
  receptions : Int
  yards : Int
  touchdowns : Int
deriving DecidableEq

/-- Cumulative `season_totals['fantasy']` sums, one per scoring convention. -/
structure FantasyTotals where
  points_standard : ℚ
  points_ppr : ℚ
  points_half_ppr : ℚ
deriving DecidableEq

/-- The derived `metrics` averages (lines 520-524 and 544-554). -/
structure SeasonMetrics where
  average_per_game : ℚ
  average_per_game_half_ppr : ℚ
  average_per_game_standard : ℚ
deriving DecidableEq

/-- One `totals_data[player_key]` entry. -/
structure SeasonEntry where
  player_name : String
  position : String
  games_played : Nat
  passing : PassingTotals
  rushing : RushingTotals
  receiving : ReceivingTotals
  fantasy : FantasyTotals
  metrics : SeasonMetrics
deriving DecidableEq

/-- The fresh entry created on first sight of a key (lines 509-525): zero games,
zero-valued category sums shaped like the incoming record, zero metrics. -/
def initSeasonEntry (perf : PlayerPerformance) : SeasonEntry :=
  { player_name := perf.player_name
    position := perf.position
    games_played := 0
    passing := ⟨0, 0, 0, 0, 0⟩
    rushing := ⟨0, 0, 0⟩
    receiving := ⟨0, 0, 0, 0⟩
    fantasy := ⟨0, 0, 0⟩
    metrics := ⟨0, 0, 0⟩ }

/-- The mutation `update_season_totals` performs on the (possibly fresh) entry
(lines 527-554): bump `games_played`, add every stat of the incoming record
(absent values add zero), then recompute the three per-game averages
(the `games_played > 0` guard of line 545 is always true after the bump). -/
def updatedSeasonEntry (entry0 : SeasonEntry) (perf : PlayerPerformance) : SeasonEntry :=
  let gp := entry0.games_played + 1
  let pa := perf.stats.passing
  let ru := perf.stats.rushing
  let re := perf.stats.receiving
  let fa := perf.stats.fantasy
  let summed : SeasonEntry :=
    { entry0 with
      games_played := gp
      passing := ⟨entry0.passing.completions + pa.completions.getD 0,
        entry0.passing.attempts + pa.attempts.getD 0,
        entry0.passing.yards + pa.yards.getD 0,
        entry0.passing.touchdowns + pa.touchdowns.getD 0,
        entry0.passing.interceptions + pa.interceptions.getD 0⟩
      rushing := ⟨entry0.rushing.carries + ru.carries.getD 0,
        entry0.rushing.yards + ru.yards.getD 0,
        entry0.rushing.touchdowns + ru.touchdowns.getD 0⟩
      receiving := ⟨entry0.receiving.targets + re.targets.getD 0,
        entry0.receiving.receptions + re.receptions.getD 0,
        entry0.receiving.yards + re.yards.getD 0,
        entry0.receiving.touchdowns + re.touchdowns.getD 0⟩
      fantasy := ⟨entry0.fantasy.points_standard + fa.points_standard.getD 0,
        entry0.fantasy.points_ppr + fa.points_ppr.getD 0,
        entry0.fantasy.points_half_ppr + fa.points_half_ppr.getD 0⟩ }
  if 0 < summed.games_played then
    { summed with
      metrics := ⟨pyRound2 (summed.fantasy.points_ppr / (summed.games_played : ℚ)),
        pyRound2 (summed.fantasy.points_half_ppr / (summed.games_played : ℚ)),
        pyRound2 (summed.fantasy.points_standard / (summed.games_played : ℚ))⟩ }
  else summed

/-- `NFLPerformanceCollector.update_season_totals` (lines 507-554): create a
zeroed entry if the key is absent (lines 509-525), then apply the mutation of
`updatedSeasonEntry` to it, leaving every other key untouched. -/
def update_season_totals (totals : String → Option SeasonEntry) (player_key : String)
    (perf : PlayerPerformance) : String → Option SeasonEntry :=
  let entry0 :=
    match totals player_key with
    | some e => e
    | none => initSeasonEntry perf
  fun k => if k = player_key then some (updatedSeasonEntry entry0 perf) else totals k

/-- `NFLPerformanceCollector._safe_float_rounded` (lines 400-407) on a value
already parsed to an optional rational. -/
def safe_float_rounded (v : Option ℚ) : Option ℚ :=
  v.map pyRound2

/-- `NFLPerformanceCollector._calculate_half_ppr` (lines 409-416):
`round(standard + receptions * 0.5, 2)` when both the (rounded) standard points
and the receptions count are present, otherwise the rounded standard value
(possibly absent).  `_safe_int` is the identity on an already-parsed optional
integer. -/
def calculate_half_ppr (fantasy_points : Option ℚ) (receptions : Option Int) : Option ℚ :=
  let standard := safe_float_rounded fantasy_points
  match standard, receptions with
  | some s, some r => some (pyRound2 (s + (r : ℚ) * (1/2)))
  | _, _ => standard

/-- `normalize_name` with the five suffix-stripping replacements skipped: what
the pipeline computes when no suffix pattern occurs (lower-case + strip, the
punctuation/hyphen/nickname replacements, whitespace collapapse).  Used to state
that on suffix-free inputs the suffix-stripping stage removes nothing. -/
def normalizeNameNoSuffix (s : String) : String :=
  String.mk (pyStrip (collapseWs (applyNonSuffixReplacements (pyStrip (s.toList.map pyLowerChar)))))

/-- Invariant of a resolution pass: links pair distinct primaries with distinct
candidates, linked keys are no longer in the unmatched pools, and the pools are
duplicate-free. -/
def MatchInv (st : MatchState) : Prop :=
  (st.links.map MatchLink.primaryId).Nodup ∧
  (st.links.map MatchLink.candidateId).Nodup ∧
  (∀ l ∈ st.links, l.primaryId ∉ st.unmatchedSleeper) ∧
  (∀ l ∈ st.links, l.candidateId ∉ st.unmatchedAdp) ∧
  st.unmatchedSleeper.Nodup ∧ st.unmatchedAdp.Nodup

/-! ## Lemmas and claim theorems -/

/-! ### Rounding lemmas -/

theorem ratFloor_eq_intFloor (q : ℚ) : q.floor = ⌊q⌋ := rfl

theorem roundHalfEven_intCast (z : ℤ) : roundHalfEven (z : ℚ) = z := by
  unfold roundHalfEven
  rw [ratFloor_eq_intFloor, Int.floor_intCast]
  simp

theorem roundHalfEven_add_two_mul_int (q : ℚ) (t : ℤ) :
    roundHalfEven (q + 2 * (t : ℚ)) = roundHalfEven q + 2 * t := by
  unfold roundHalfEven
  rw [ratFloor_eq_intFloor, ratFloor_eq_intFloor]
  have h2 : (q + 2 * (t : ℚ)) = q + ((2 * t : ℤ) : ℚ) := by push_cast; ring
  rw [h2, Int.floor_add_int]
  have h3 : q + ((2 * t : ℤ) : ℚ) - ((⌊q⌋ + 2 * t : ℤ) : ℚ) = q - (⌊q⌋ : ℚ) := by
    push_cast; ring
  rw [h3]
  have h4 : (⌊q⌋ + 2 * t) % 2 = ⌊q⌋ % 2 := by omega
  rw [h4]
  split_ifs <;> omega

theorem pyRound2_pyRound2_add_half (s : ℚ) (n : ℤ) :
    pyRound2 (pyRound2 s + (n : ℚ) * (1/2)) = pyRound2 (s + (n : ℚ) * (1/2)) := by
  unfold pyRound2
  have hL : ((roundHalfEven (s * 100) : ℚ) / 100 + (n : ℚ) * (1/2)) * 100 =
      ((roundHalfEven (s * 100) + 2 * (25 * n) : ℤ) : ℚ) := by
    push_cast; ring
  have hR : (s + (n : ℚ) * (1/2)) * 100 = s * 100 + 2 * ((25 * n : ℤ) : ℚ) := by
    push_cast; ring
  rw [hL, roundHalfEven_intCast, hR, roundHalfEven_add_two_mul_int]

/-! ### Aggregation engine: claims C10, C9, C4, C3 -/

/-- C10: for every player performance row, the half-PPR value is
`round(standard + 0.5 * receptions, 2)` when both the standard points and the
receptions count are present (the double rounding performed by the code — the
stored standard value is itself rounded — is provably equal to rounding once),
and equals the (rounded, possibly absent) standard value when receptions is
absent.  The function is total, so no input raises. -/
theorem claim_C10 (fp : Option ℚ) (r : Option Int) :
    (∀ s n, fp = some s → r = some n →
      calculate_half_ppr fp r = some (pyRound2 (s + (n : ℚ) * (1/2)))) ∧
    (r = none → calculate_half_ppr fp r = safe_float_rounded fp) := by
  constructor
  · intro s n hs hn
    subst hs; subst hn
    show some (pyRound2 (pyRound2 s + (n : ℚ) * (1/2))) = _
    rw [pyRound2_pyRound2_add_half]
  · intro hr
    subst hr
    cases fp <;> rfl

/-- Witness for C10 at a concrete row: standard `10.3`, receptions `5` gives
`round(10.3 + 2.5, 2) = 12.8`; absent receptions returns the standard value. -/
theorem claim_C10_witness :
    calculate_half_ppr (some (103/10)) (some 5) = some (pyRound2 (103/10 + (5 : ℚ) * (1/2))) ∧
    calculate_half_ppr (some (103/10)) none = safe_float_rounded (some (103/10)) :=
  ⟨(claim_C10 (some (103/10)) (some 5)).1 (103/10) 5 rfl rfl,
   (claim_C10 (some (103/10)) none).2 rfl⟩

/-- C9: `update_season_totals` is frame-preserving: entries of other keys are
untouched, the updated key is present afterwards, and the key set after the
call is the key set before plus at most the key being updated. -/
theorem claim_C9 (totals : String → Option SeasonEntry) (player_key : String)
    (perf : PlayerPerformance) :
    (∀ k, k ≠ player_key → update_season_totals totals player_key perf k = totals k) ∧
    (update_season_totals totals player_key perf player_key).isSome ∧
    (∀ k, totals k ≠ none → update_season_totals totals player_key perf k ≠ none) ∧
    (∀ k, update_season_totals totals player_key perf k ≠ none →
      totals k ≠ none ∨ k = player_key) := by
  refine ⟨fun k hk => ?_, ?_, fun k hk => ?_, fun k hk => ?_⟩
  · simp only [update_season_totals]
    rw [if_neg hk]
  · simp [update_season_totals]
  · by_cases h : k = player_key
    · subst h
      simp [update_season_totals]
    · simp only [update_season_totals]
      rw [if_neg h]
      exact hk
  · by_cases h : k = player_key
    · exact Or.inr h
    · simp only [update_season_totals] at hk
      rw [if_neg h] at hk
      exact Or.inl hk

/-- Witness for C9 at a concrete store: updating key `"a"` in a store holding
only `"b"` leaves `"b"` intact, creates `"a"`, and adds no other key. -/
theorem claim_C9_witness :
    (∀ k, k ≠ "a" →
      update_season_totals
        (fun k => if k = "b" then some (initSeasonEntry ⟨"nb", "RB",
          ⟨⟨none, none, none, none, none⟩, ⟨none, none, none⟩,
           ⟨none, none, none, none⟩, ⟨none, none, none⟩⟩⟩) else none) "a"
        ⟨"na", "QB", ⟨⟨none, none, none, none, none⟩, ⟨none, none, none⟩,
          ⟨none, none, none, none⟩, ⟨some 10, some 12, some 11⟩⟩⟩ k =
      (fun k => if k = "b" then some (initSeasonEntry ⟨"nb", "RB",
          ⟨⟨none, none, none, none, none⟩, ⟨none, none, none⟩,
           ⟨none, none, none, none⟩, ⟨none, none, none⟩⟩⟩) else none) k) ∧
    (update_season_totals
        (fun k => if k = "b" then some (initSeasonEntry ⟨"nb", "RB",
          ⟨⟨none, none, none, none, none⟩, ⟨none, none, none⟩,
           ⟨none, none, none, none⟩, ⟨none, none, none⟩⟩⟩) else none) "a"
        ⟨"na", "QB", ⟨⟨none, none, none, none, none⟩, ⟨none, none, none⟩,
          ⟨none, none, none, none⟩, ⟨some 10, some 12, some 11⟩⟩⟩ "a").isSome :=
  ⟨(claim_C9 _ "a" _).1, (claim_C9 _ "a" _).2.1⟩

theorem updatedSeasonEntry_games_played (e0 : SeasonEntry) (perf : PlayerPerformance) :
    (updatedSeasonEntry e0 perf).games_played = e0.games_played + 1 := by
  simp [updatedSeasonEntry]

theorem updatedSeasonEntry_fantasy (e0 : SeasonEntry) (perf : PlayerPerformance) :
    (updatedSeasonEntry e0 perf).fantasy =
      ⟨e0.fantasy.points_standard + perf.stats.fantasy.points_standard.getD 0,
       e0.fantasy.points_ppr + perf.stats.fantasy.points_ppr.getD 0,
       e0.fantasy.points_half_ppr + perf.stats.fantasy.points_half_ppr.getD 0⟩ := by
  simp [updatedSeasonEntry]

theorem updatedSeasonEntry_metrics_eq (e0 : SeasonEntry) (perf : PlayerPerformance) :
    (updatedSeasonEntry e0 perf).metrics =
      ⟨pyRound2 ((updatedSeasonEntry e0 perf).fantasy.points_ppr /
          ((updatedSeasonEntry e0 perf).games_played : ℚ)),
        pyRound2 ((updatedSeasonEntry e0 perf).fantasy.points_half_ppr /
          ((updatedSeasonEntry e0 perf).games_played : ℚ)),
        pyRound2 ((updatedSeasonEntry e0 perf).fantasy.points_standard /
          ((updatedSeasonEntry e0 perf).games_played : ℚ))⟩ := by
  simp [updatedSeasonEntry]

theorem update_season_totals_at_key (totals : String → Option SeasonEntry)
    (player_key : String) (perf : PlayerPerformance) :
    update_season_totals totals player_key perf player_key =
      some (updatedSeasonEntry
        (match totals player_key with | some e => e | none => initSeasonEntry perf) perf) := by
  simp [update_season_totals]

/-- C4: after any call to `update_season_totals`, each stored per-game average
equals `round(cumulative points / games_played, 2)` for its scoring convention;
the averages are recomputed on each update. -/
theorem claim_C4 (totals : String → Option SeasonEntry) (player_key : String)
    (perf : PlayerPerformance) (e : SeasonEntry)
    (h : update_season_totals totals player_key perf player_key = some e) :
    e.metrics.average_per_game = pyRound2 (e.fantasy.points_ppr / (e.games_played : ℚ)) ∧
    e.metrics.average_per_game_half_ppr =
      pyRound2 (e.fantasy.points_half_ppr / (e.games_played : ℚ)) ∧
    e.metrics.average_per_game_standard =
      pyRound2 (e.fantasy.points_standard / (e.games_played : ℚ)) := by
  rw [update_season_totals_at_key] at h
  injection h with h
  subst h
  have hm := updatedSeasonEntry_metrics_eq
    (match totals player_key with | some e => e | none => initSeasonEntry perf) perf
  rw [hm]
  exact ⟨rfl, rfl, rfl⟩

/-- Witness for C4 at a concrete call: one update for a fresh key. -/
theorem claim_C4_witness :
    ∃ e, update_season_totals (fun _ => none) "k"
        ⟨"n", "QB", ⟨⟨none, none, none, none, none⟩, ⟨none, none, none⟩,
          ⟨none, none, none, none⟩, ⟨some 10, some 12, some 11⟩⟩⟩ "k" = some e ∧
      e.metrics.average_per_game = pyRound2 (e.fantasy.points_ppr / (e.games_played : ℚ)) ∧
      e.metrics.average_per_game_half_ppr =
        pyRound2 (e.fantasy.points_half_ppr / (e.games_played : ℚ)) ∧
      e.metrics.average_per_game_standard =
        pyRound2 (e.fantasy.points_standard / (e.games_played : ℚ)) := by
  have h := update_season_totals_at_key (fun _ => none) "k"
    ⟨"n", "QB", ⟨⟨none, none, none, none, none⟩, ⟨none, none, none⟩,
      ⟨none, none, none, none⟩, ⟨some 10, some 12, some 11⟩⟩⟩
  exact ⟨_, h, claim_C4 _ _ _ _ h⟩

/-- Applying a sequence of performance records for one key to a store that
already holds `e0` yields an entry whose games and cumulative convention sums
grow by the length and the per-convention sums of the sequence. -/
theorem update_foldl_accumulates (player_key : String) :
    ∀ (perfs : List PlayerPerformance) (totals : String → Option SeasonEntry) (e0 : SeasonEntry),
      totals player_key = some e0 →
      ∃ e, (perfs.foldl (fun st p => update_season_totals st player_key p) totals) player_key
          = some e ∧
        e.games_played = e0.games_played + perfs.length ∧
        e.fantasy.points_standard = e0.fantasy.points_standard +
          (perfs.map (fun p => p.stats.fantasy.points_standard.getD 0)).sum ∧
        e.fantasy.points_ppr = e0.fantasy.points_ppr +
          (perfs.map (fun p => p.stats.fantasy.points_ppr.getD 0)).sum ∧
        e.fantasy.points_half_ppr = e0.fantasy.points_half_ppr +
          (perfs.map (fun p => p.stats.fantasy.points_half_ppr.getD 0)).sum := by
  intro perfs
  induction perfs with
  | nil =>
    intro totals e0 h
    exact ⟨e0, by simpa using h, by simp, by simp, by simp, by simp⟩
  | cons p rest ih =>
    intro totals e0 h
    have hstep : (update_season_totals totals player_key p) player_key =
        some (updatedSeasonEntry e0 p) := by
      rw [update_season_totals_at_key, h]
    obtain ⟨e, he, hg, hs, hp, hh⟩ := ih (update_season_totals totals player_key p)
      (updatedSeasonEntry e0 p) hstep
    refine ⟨e, by simpa using he, ?_, ?_, ?_, ?_⟩
    · rw [hg, updatedSeasonEntry_games_played]
      simp [Nat.add_assoc, Nat.add_comm 1]
    · rw [hs, updatedSeasonEntry_fantasy]
      simp [add_assoc]
    · rw [hp, updatedSeasonEntry_fantasy]
      simp [add_assoc]
    · rw [hh, updatedSeasonEntry_fantasy]
      simp [add_assoc]

/-- C3: applying a deduplicated sequence of `N ≥ 1` period records for one key
to a store with no entry for that key yields `games_played = N` and, for each
scoring convention, a cumulative total equal to the sum of that convention's
per-period values (absent values contributing zero). -/
theorem claim_C3 (totals : String → Option SeasonEntry) (player_key : String)
    (perfs : List PlayerPerformance) (h0 : totals player_key = none) (hne : perfs ≠ []) :
    ∃ e, (perfs.foldl (fun st p => update_season_totals st player_key p) totals) player_key
        = some e ∧
      e.games_played = perfs.length ∧
      e.fantasy.points_standard =
        (perfs.map (fun p => p.stats.fantasy.points_standard.getD 0)).sum ∧
      e.fantasy.points_ppr =
        (perfs.map (fun p => p.stats.fantasy.points_ppr.getD 0)).sum ∧
      e.fantasy.points_half_ppr =
        (perfs.map (fun p => p.stats.fantasy.points_half_ppr.getD 0)).sum := by
  cases perfs with
  | nil => exact absurd rfl hne
  | cons p rest =>
    have hstep : (update_season_totals totals player_key p) player_key =
        some (updatedSeasonEntry (initSeasonEntry p) p) := by
      rw [update_season_totals_at_key, h0]
    obtain ⟨e, he, hg, hs, hp, hh⟩ := update_foldl_accumulates player_key rest
      (update_season_totals totals player_key p) (updatedSeasonEntry (initSeasonEntry p) p) hstep
    refine ⟨e, by simpa using he, ?_, ?_, ?_, ?_⟩
    · rw [hg, updatedSeasonEntry_games_played]
      simp [initSeasonEntry, Nat.add_comm 1]
    · rw [hs, updatedSeasonEntry_fantasy]
      simp [initSeasonEntry]
    · rw [hp, updatedSeasonEntry_fantasy]
      simp [initSeasonEntry]
    · rw [hh, updatedSeasonEntry_fantasy]
      simp [initSeasonEntry]


/-! ### Replacement lemmas and claim C8 -/

theorem replaceLF_of_not_contains (p r : List Char) :
    ∀ (fuel : Nat) (l : List Char), containsSub p l = false → replaceLF p r fuel l = l := by
  intro fuel
  induction fuel with
  | zero => intro l _; rfl
  | succ n ih =>
    intro l h
    cases l with
    | nil => rfl
    | cons c cs =>
      have h' : (p.isPrefixOf (c :: cs) || containsSub p cs) = false := h
      rw [Bool.or_eq_false_iff] at h'
      show (if p ≠ [] ∧ p.isPrefixOf (c :: cs) then _ else _) = _
      rw [if_neg (fun hc => by simp [h'.1] at hc)]
      rw [ih cs h'.2]

theorem replaceL_of_not_contains (p r l : List Char) (h : containsSub p l = false) :
    replaceL p r l = l :=
  replaceLF_of_not_contains p r l.length l h

theorem foldl_replaceL_of_not_contains :
    ∀ (ps : List (List Char × List Char)) (l : List Char),
      (∀ pr ∈ ps, containsSub pr.1 l = false) →
      ps.foldl (fun acc pr => replaceL pr.1 pr.2 acc) l = l := by
  intro ps
  induction ps with
  | nil => intro l _; rfl
  | cons pr rest ih =>
    intro l h
    rw [List.foldl_cons, replaceL_of_not_contains _ _ _ (h pr (List.mem_cons_self _ _)),
      ih l (fun q hq => h q (List.mem_cons_of_mem _ hq))]

/-- C8 counterexample: the suffix replacements are substring replacements, not
token replacements.  `"Ivan"` has no whitespace-delimited token equal to a
suffix, yet `normalize_name` deletes the `iv` inside it: the output is `"an"`,
while the claim requires the letters of the token `ivan` to be preserved. -/
theorem claim_C8_counterexample :
    normalize_name "Ivan" = "an" ∧ normalize_name "Ivan" ≠ "ivan" := by
  constructor
  · decide
  · decide

/-- C8 amended: suffix stripping is substring-based, so `jr.`, `sr.`, `iii`,
`ii`, `iv` are removed wherever they occur, including strictly inside a longer
word (e.g. `normalize_name "Ivan" = "an"`).  For every input whose lowered,
stripped form contains none of the five suffix patterns as a substring, the
suffix-stripping stage removes nothing: the output is exactly that of the
remaining rules (period/apostrophe removal, hyphen conversion, nickname
expansion, whitespace collapsing). -/
theorem claim_C8_amended (s : String)
    (h : ∀ p ∈ [("jr.".toList : List Char), "sr.".toList, "iii".toList, "ii".toList, "iv".toList],
      containsSub p (pyStrip (s.toList.map pyLowerChar)) = false) :
    normalize_name s = normalizeNameNoSuffix s := by
  have key : applyNameReplacements (pyStrip (s.toList.map pyLowerChar)) =
      applyNonSuffixReplacements (pyStrip (s.toList.map pyLowerChar)) := by
    unfold applyNameReplacements applyNonSuffixReplacements nameReplacements nonSuffixReplacements
    simp only [List.foldl_cons]
    rw [replaceL_of_not_contains _ _ _ (h _ (by simp)),
      replaceL_of_not_contains _ _ _ (h _ (by simp)),
      replaceL_of_not_contains _ _ _ (h _ (by simp)),
      replaceL_of_not_contains _ _ _ (h _ (by simp)),
      replaceL_of_not_contains _ _ _ (h _ (by simp))]
  unfold normalize_name normalizeNameNoSuffix normalizeNameL
  rw [key]

/-- Witness for the amended C8 at a concrete suffix-free input. -/
theorem claim_C8_witness :
    (∀ p ∈ [("jr.".toList : List Char), "sr.".toList, "iii".toList, "ii".toList, "iv".toList],
      containsSub p (pyStrip ("Josh Allen".toList.map pyLowerChar)) = false) ∧
    normalize_name "Josh Allen" = normalizeNameNoSuffix "Josh Allen" :=
  ⟨by decide, claim_C8_amended "Josh Allen" (by decide)⟩

/-! ### Character-level lemmas for claim C5 -/

theorem charOfNat_lower_stable (n : Nat) (h1 : 97 ≤ n) (h2 : n ≤ 122) :
    pyLowerChar (Char.ofNat n) = Char.ofNat n := by
  interval_cases n <;> decide

theorem pyLowerChar_idem (c : Char) : pyLowerChar (pyLowerChar c) = pyLowerChar c := by
  by_cases h : 65 ≤ c.toNat ∧ c.toNat ≤ 90
  · have h1 : pyLowerChar c = Char.ofNat (c.toNat + 32) := by unfold pyLowerChar; rw [if_pos h]
    rw [h1]
    exact charOfNat_lower_stable (c.toNat + 32) (by omega) (by omega)
  · have h1 : pyLowerChar c = c := by unfold pyLowerChar; rw [if_neg h]
    rw [h1, h1]

theorem mem_dropTrailing {c : Char} : ∀ {l : List Char}, c ∈ dropTrailing l → c ∈ l := by
  intro l
  induction l with
  | nil => intro h; exact h
  | cons a as ih =>
    intro h
    simp only [dropTrailing] at h
    split at h
    · cases h
    · rcases List.mem_cons.mp h with h1 | h1
      · exact h1 ▸ List.mem_cons_self _ _
      · exact List.mem_cons_of_mem _ (ih h1)

theorem mem_dropWhile {c : Char} {p : Char → Bool} :
    ∀ {l : List Char}, c ∈ l.dropWhile p → c ∈ l := by
  intro l
  induction l with
  | nil => intro h; exact h
  | cons a as ih =>
    intro h
    rw [List.dropWhile_cons] at h
    split at h
    · exact List.mem_cons_of_mem _ (ih h)
    · exact h

theorem mem_pyStrip {c : Char} {l : List Char} (h : c ∈ pyStrip l) : c ∈ l :=
  mem_dropWhile (mem_dropTrailing h)

theorem mem_collapseAux {c : Char} :
    ∀ (b : Bool) (l : List Char), c ∈ collapseAux b l → c = ' ' ∨ c ∈ l := by
  intro b l
  induction l generalizing b with
  | nil => intro h; cases h
  | cons a as ih =>
    intro h
    simp only [collapseAux] at h
    split at h
    · split at h
      · rcases ih true h with h1 | h1
        · exact Or.inl h1
        · exact Or.inr (List.mem_cons_of_mem _ h1)
      · rcases List.mem_cons.mp h with h1 | h1
        · exact Or.inl h1
        · rcases ih true h1 with h2 | h2
          · exact Or.inl h2
          · exact Or.inr (List.mem_cons_of_mem _ h2)
    · rcases List.mem_cons.mp h with h1 | h1
      · exact Or.inr (h1 ▸ List.mem_cons_self _ _)
      · rcases ih false h1 with h2 | h2
        · exact Or.inl h2
        · exact Or.inr (List.mem_cons_of_mem _ h2)

theorem mem_drop {c : Char} {n : Nat} : ∀ {l : List Char}, c ∈ l.drop n → c ∈ l :=
  fun h => (List.drop_sublist _ _).subset h

theorem mem_replaceLF {c : Char} (p r : List Char) :
    ∀ (fuel : Nat) (l : List Char), c ∈ replaceLF p r fuel l → c ∈ r ∨ c ∈ l := by
  intro fuel
  induction fuel with
  | zero => intro l h; exact Or.inr h
  | succ n ih =>
    intro l h
    cases l with
    | nil => cases h
    | cons a as =>
      simp only [replaceLF] at h
      split at h
      · rcases List.mem_append.mp h with h1 | h1
        · exact Or.inl h1
        · rcases ih _ h1 with h2 | h2
          · exact Or.inl h2
          · exact Or.inr (mem_drop h2)
      · rcases List.mem_cons.mp h with h1 | h1
        · exact Or.inr (h1 ▸ List.mem_cons_self _ _)
        · rcases ih as h1 with h2 | h2
          · exact Or.inl h2
          · exact Or.inr (List.mem_cons_of_mem _ h2)

theorem lowered_foldl_replace :
    ∀ (ps : List (List Char × List Char)) (l : List Char),
      (∀ d ∈ l, pyLowerChar d = d) → (∀ pr ∈ ps, ∀ d ∈ pr.2, pyLowerChar d = d) →
      ∀ c ∈ ps.foldl (fun acc pr => replaceL pr.1 pr.2 acc) l, pyLowerChar c = c := by
  intro ps
  induction ps with
  | nil => intro l hl _ c hc; exact hl c hc
  | cons pr rest ih =>
    intro l hl hps c hc
    rw [List.foldl_cons] at hc
    refine ih (replaceL pr.1 pr.2 l) ?_ (fun q hq => hps q (List.mem_cons_of_mem _ hq)) c hc
    intro d hd
    rcases mem_replaceLF pr.1 pr.2 _ l hd with h1 | h1
    · exact hps pr (List.mem_cons_self _ _) d h1
    · exact hl d h1

theorem lowered_normalizeNameL (l : List Char) :
    ∀ c ∈ normalizeNameL l, pyLowerChar c = c := by
  intro c hc
  have h1 : c ∈ collapseWs (applyNameReplacements (pyStrip (l.map pyLowerChar))) :=
    mem_pyStrip hc
  rcases mem_collapseAux false _ h1 with h2 | h2
  · rw [h2]; decide
  · refine lowered_foldl_replace nameReplacements (pyStrip (l.map pyLowerChar)) ?_
      (by decide) c h2
    intro d hd
    rcases List.mem_map.mp (mem_pyStrip hd) with ⟨a, _, rfl⟩
    exact pyLowerChar_idem a

/-! ### Whitespace-canonicality lemmas for claim C5 -/

/-- Every whitespace character of `l` is the plain space `' '`. -/
def allBlankSpaces (l : List Char) : Bool :=
  l.all (fun c => !isPySpace c || c = ' ')

/-- No two adjacent whitespace characters. -/
def noTwoSpaces : List Char → Bool
  | c :: d :: cs => (!(isPySpace c && isPySpace d)) && noTwoSpaces (d :: cs)
  | _ => true

theorem noTwoSpaces_tail {a : Char} {as : List Char} (h : noTwoSpaces (a :: as) = true) :
    noTwoSpaces as = true := by
  cases as with
  | nil => rfl
  | cons b bs =>
    have h' : ((!(isPySpace a && isPySpace b)) && noTwoSpaces (b :: bs)) = true := h
    exact (Bool.and_eq_true_iff.mp h').2

theorem noTwoSpaces_pair {a b : Char} {bs : List Char}
    (h : noTwoSpaces (a :: b :: bs) = true) : (isPySpace a && isPySpace b) = false := by
  have h' : ((!(isPySpace a && isPySpace b)) && noTwoSpaces (b :: bs)) = true := h
  have := (Bool.and_eq_true_iff.mp h').1
  cases hg : (isPySpace a && isPySpace b) with
  | false => rfl
  | true => rw [hg] at this; cases this

theorem collapseAux_head_not_space :
    ∀ (l : List Char) (c : Char), (collapseAux true l).head? = some c → isPySpace c = false := by
  intro l
  induction l with
  | nil => intro c h; cases h
  | cons a as ih =>
    intro c h
    simp only [collapseAux] at h
    split at h
    · exact ih c h
    · rename_i ha
      rw [List.head?_cons, Option.some.injEq] at h
      subst h
      exact Bool.of_not_eq_true ha

theorem allBlankSpaces_collapseAux : ∀ (b : Bool) (l : List Char),
    allBlankSpaces (collapseAux b l) = true := by
  intro b l
  induction l generalizing b with
  | nil => rfl
  | cons a as ih =>
    simp only [collapseAux]
    split
    · split
      · exact ih true
      · simp only [allBlankSpaces, List.all_cons]
        refine Bool.and_eq_true_iff.mpr ⟨by decide, ih true⟩
    · rename_i ha
      simp only [allBlankSpaces, List.all_cons]
      refine Bool.and_eq_true_iff.mpr ⟨?_, ih false⟩
      rw [Bool.of_not_eq_true ha]
      rfl

theorem noTwoSpaces_cons_of_head {a : Char} {l : List Char} (hl : noTwoSpaces l = true)
    (h : ∀ d, l.head? = some d → (isPySpace a && isPySpace d) = false) :
    noTwoSpaces (a :: l) = true := by
  cases l with
  | nil => rfl
  | cons b bs =>
    show ((!(isPySpace a && isPySpace b)) && noTwoSpaces (b :: bs)) = true
    rw [h b rfl, hl]
    rfl

theorem noTwoSpaces_collapseAux : ∀ (b : Bool) (l : List Char),
    noTwoSpaces (collapseAux b l) = true := by
  intro b l
  induction l generalizing b with
  | nil => rfl
  | cons a as ih =>
    simp only [collapseAux]
    split
    · split
      · exact ih true
      · refine noTwoSpaces_cons_of_head (ih true) ?_
        intro d hd
        rw [collapseAux_head_not_space as d hd, Bool.and_false]
    · rename_i ha
      refine noTwoSpaces_cons_of_head (ih false) ?_
      intro d hd
      rw [Bool.of_not_eq_true ha, Bool.false_and]

theorem noTwoSpaces_dropWhile {p : Char → Bool} :
    ∀ {l : List Char}, noTwoSpaces l = true → noTwoSpaces (l.dropWhile p) = true := by
  intro l
  induction l with
  | nil => intro h; exact h
  | cons a as ih =>
    intro h
    rw [List.dropWhile_cons]
    split
    · exact ih (noTwoSpaces_tail h)
    · exact h

theorem dropTrailing_head? : ∀ (l : List Char),
    dropTrailing l = [] ∨ (dropTrailing l).head? = l.head? := by
  intro l
  cases l with
  | nil => exact Or.inl rfl
  | cons a as =>
    simp only [dropTrailing]
    split
    · exact Or.inl rfl
    · exact Or.inr rfl

theorem noTwoSpaces_dropTrailing :
    ∀ {l : List Char}, noTwoSpaces l = true → noTwoSpaces (dropTrailing l) = true := by
  intro l
  induction l with
  | nil => intro h; exact h
  | cons a as ih =>
    intro h
    simp only [dropTrailing]
    split
    · rfl
    · refine noTwoSpaces_cons_of_head (ih (noTwoSpaces_tail h)) ?_
      intro d hd
      rcases dropTrailing_head? as with h1 | h1
      · rw [h1] at hd; cases hd
      · rw [h1] at hd
        cases as with
        | nil => cases hd
        | cons b bs =>
          rw [List.head?_cons, Option.some.injEq] at hd
          subst hd
          exact noTwoSpaces_pair h

theorem allBlankSpaces_of_mem {l : List Char} (h : allBlankSpaces l = true) :
    ∀ c ∈ l, (!isPySpace c || c = ' ') = true := by
  intro c hc
  exact List.all_eq_true.mp h c hc

theorem allBlankSpaces_of_forall {l : List Char}
    (h : ∀ c ∈ l, (!isPySpace c || c = ' ') = true) : allBlankSpaces l = true :=
  List.all_eq_true.mpr h

theorem dropTrailing_idem : ∀ (l : List Char), dropTrailing (dropTrailing l) = dropTrailing l := by
  intro l
  induction l with
  | nil => rfl
  | cons a as ih =>
    simp only [dropTrailing]
    split
    · rfl
    · rename_i hcond
      simp only [dropTrailing, ih]
      rw [if_neg hcond]

theorem dropWhile_eq_self_of_head {p : Char → Bool} {l : List Char}
    (h : ∀ c, l.head? = some c → p c = false) : l.dropWhile p = l := by
  cases l with
  | nil => rfl
  | cons a as =>
    rw [List.dropWhile_cons, if_neg]
    rw [h a rfl]
    exact Bool.false_ne_true

theorem head?_dropWhile_isPySpace : ∀ (l : List Char) (c : Char),
    (l.dropWhile isPySpace).head? = some c → isPySpace c = false := by
  intro l
  induction l with
  | nil => intro c h; cases h
  | cons a as ih =>
    intro c h
    rw [List.dropWhile_cons] at h
    split at h
    · exact ih c h
    · rename_i ha
      rw [List.head?_cons, Option.some.injEq] at h
      subst h
      exact Bool.of_not_eq_true ha

theorem pyStrip_head_not_space (l : List Char) (c : Char)
    (h : (pyStrip l).head? = some c) : isPySpace c = false := by
  unfold pyStrip at h
  rcases dropTrailing_head? (l.dropWhile isPySpace) with h1 | h1
  · rw [h1] at h; cases h
  · rw [h1] at h
    exact head?_dropWhile_isPySpace l c h

theorem pyStrip_pyStrip (l : List Char) : pyStrip (pyStrip l) = pyStrip l := by
  have h1 : (pyStrip l).dropWhile isPySpace = pyStrip l :=
    dropWhile_eq_self_of_head (fun c hc => pyStrip_head_not_space l c hc)
  show dropTrailing ((pyStrip l).dropWhile isPySpace) = pyStrip l
  rw [h1]
  exact dropTrailing_idem _

theorem collapseAux_eq_self : ∀ (l : List Char), allBlankSpaces l = true →
    noTwoSpaces l = true →
    collapseAux false l = l ∧
      ((∀ c, l.head? = some c → isPySpace c = false) → collapseAux true l = l) := by
  intro l
  induction l with
  | nil => intro _ _; exact ⟨rfl, fun _ => rfl⟩
  | cons a as ih =>
    intro hb ht
    have hbas : allBlankSpaces as = true := by
      refine allBlankSpaces_of_forall (fun c hc => allBlankSpaces_of_mem hb c ?_)
      exact List.mem_cons_of_mem _ hc
    have htas : noTwoSpaces as = true := noTwoSpaces_tail ht
    obtain ⟨ihf, iht⟩ := ih hbas htas
    constructor
    · simp only [collapseAux]
      by_cases ha : isPySpace a = true
      · rw [if_pos ha]
        have haeq : a = ' ' := by
          have := allBlankSpaces_of_mem hb a (List.mem_cons_self _ _)
          rw [ha] at this
          simpa using this
        have hhead : ∀ c, as.head? = some c → isPySpace c = false := by
          intro c hc
          cases as with
          | nil => cases hc
          | cons b bs =>
            rw [List.head?_cons, Option.some.injEq] at hc
            subst hc
            have := noTwoSpaces_pair ht
            rw [ha] at this
            simpa using this
        rw [iht hhead, haeq]
        rfl
      · rw [if_neg ha, ihf]
    · intro hh
      simp only [collapseAux]
      rw [if_neg ?hneg, ihf]
      case hneg =>
        have := hh a rfl
        rw [this]
        exact Bool.false_ne_true

theorem normalizeNameL_canonical (l : List Char) :
    pyStrip (normalizeNameL l) = normalizeNameL l ∧
    collapseWs (normalizeNameL l) = normalizeNameL l := by
  have hM : normalizeNameL l =
      pyStrip (collapseWs (applyNameReplacements (pyStrip (l.map pyLowerChar)))) := rfl
  have hball : allBlankSpaces
      (collapseWs (applyNameReplacements (pyStrip (l.map pyLowerChar)))) = true :=
    allBlankSpaces_collapseAux false _
  have hbtwo : noTwoSpaces
      (collapseWs (applyNameReplacements (pyStrip (l.map pyLowerChar)))) = true :=
    noTwoSpaces_collapseAux false _
  have hNall : allBlankSpaces (normalizeNameL l) = true := by
    refine allBlankSpaces_of_forall (fun c hc => ?_)
    exact allBlankSpaces_of_mem hball c (mem_pyStrip (hM ▸ hc))
  have hNtwo : noTwoSpaces (normalizeNameL l) = true := by
    rw [hM]
    exact noTwoSpaces_dropTrailing (noTwoSpaces_dropWhile hbtwo)
  refine ⟨?_, ?_⟩
  · rw [hM]
    exact pyStrip_pyStrip _
  · exact (collapseAux_eq_self _ hNall hNtwo).1

/-- C5 counterexample: `normalize_name` is not idempotent.  `"i.i"` normalizes
to `"ii"` (the period removal creates a new `ii` occurrence), and a second
application strips that `ii`, giving `""`. -/
theorem claim_C5_counterexample :
    normalize_name (normalize_name "i.i") ≠ normalize_name "i.i" ∧
    normalize_name "i.i" = "ii" ∧ normalize_name (normalize_name "i.i") = "" := by
  refine ⟨?_, ?_, ?_⟩
  · decide
  · decide
  · decide

theorem mk_toList (l : List Char) : (String.mk l).toList = l := rfl

theorem normalize_name_toList (s : String) :
    (normalize_name s).toList = normalizeNameL s.toList := by
  show (String.mk (normalizeNameL s.toList)).toList = normalizeNameL s.toList
  exact mk_toList _

/-- Idempotence of the normalization pipeline at the character-list level, for
lists whose normal form contains no replacement source pattern. -/
theorem normalizeNameL_idem (l : List Char)
    (h : ∀ pr ∈ nameReplacements, containsSub pr.1 (normalizeNameL l) = false) :
    normalizeNameL (normalizeNameL l) = normalizeNameL l := by
  obtain ⟨hstrip, hcollapse⟩ := normalizeNameL_canonical l
  have hmap : (normalizeNameL l).map pyLowerChar = normalizeNameL l := by
    rw [List.map_congr_left (lowered_normalizeNameL l)]
    exact List.map_id' _
  have happ : applyNameReplacements (normalizeNameL l) = normalizeNameL l :=
    foldl_replaceL_of_not_contains nameReplacements (normalizeNameL l) h
  show pyStrip (collapseWs (applyNameReplacements
    (pyStrip ((normalizeNameL l).map pyLowerChar)))) = normalizeNameL l
  rw [hmap, hstrip, happ, hcollapse, hstrip]

/-- C5 amended: `normalize_name` is idempotent on every string whose normalized
form contains none of the sixteen replacement source patterns (`jr.`, `sr.`,
`iii`, `ii`, `iv`, `.`, the apostrophe, `-`, `dj`, `cj`, `aj`, `tj`, `jj`,
`bj`, `rj`, `pj`) as a substring; in general a second application can differ
(`claim_C5_counterexample`), because a replacement can create a new occurrence
of an earlier pattern. -/
theorem claim_C5_amended (s : String)
    (h : ∀ pr ∈ nameReplacements, containsSub pr.1 (normalize_name s).toList = false) :
    normalize_name (normalize_name s) = normalize_name s := by
  have h' : ∀ pr ∈ nameReplacements, containsSub pr.1 (normalizeNameL s.toList) = false := by
    simpa only [normalize_name_toList] using h
  have key := normalizeNameL_idem s.toList h'
  calc normalize_name (normalize_name s)
      = String.mk (normalizeNameL ((normalize_name s).toList)) := rfl
    _ = String.mk (normalizeNameL (normalizeNameL s.toList)) := by
        rw [normalize_name_toList]
    _ = String.mk (normalizeNameL s.toList) := by rw [key]
    _ = normalize_name s := rfl

/-- Witness for the amended C5 at a concrete pattern-free input. -/
theorem claim_C5_witness :
    (∀ pr ∈ nameReplacements, containsSub pr.1 (normalize_name "Josh Allen").toList = false) ∧
    normalize_name (normalize_name "Josh Allen") = normalize_name "Josh Allen" :=
  ⟨by decide, claim_C5_amended "Josh Allen" (by decide)⟩

/-! ### Similarity and strategy 3 lemmas; claim C6 -/

theorem pyMin_le_one (a : ℚ) : pyMin a 1 ≤ 1 := by
  unfold pyMin
  split_ifs with h
  · exact h
  · exact le_refl 1

theorem calculate_name_similarity_le_one (a b : String) :
    calculate_name_similarity a b ≤ 1 := by
  simp only [calculate_name_similarity]
  split_ifs
  · norm_num
  · norm_num
  all_goals exact pyMin_le_one _

theorem calculate_name_similarity_of_norm_empty {n1 : String} (n2 : String)
    (h : normalize_name n1 = "") : calculate_name_similarity n1 n2 = 0 := by
  simp only [calculate_name_similarity]
  rw [if_pos (Or.inl h)]

section MatchEngineLemmas

/- The scorer and the normalizers are opaque for the rest of this section: the
lemmas below only manipulate them through the interface lemmas above, and
keeping them unfoldable makes unification dive into their (symbolic)
evaluation. -/
attribute [local irreducible] calculate_name_similarity normalize_name normalizeNameL
  normalize_position normalize_team positions_match teams_match

theorem s3step_update (adp : List (String × AdpPlayer)) (nm pos : String)
    (acc : Option String × ℚ) (aid : String) (ap : AdpPlayer)
    (hl : lookupAssoc adp aid = some ap)
    (hp : positions_match pos (normalize_position ap.position) = true)
    (hc : 3/4 ≤ calculate_name_similarity nm ap.name ∧
      acc.2 < calculate_name_similarity nm ap.name) :
    s3step adp nm pos acc aid = (some aid, calculate_name_similarity nm ap.name) := by
  simp [s3step, hl, hp, hc]

theorem s3step_keep_incompatible (adp : List (String × AdpPlayer)) (nm pos : String)
    (acc : Option String × ℚ) (aid : String) (ap : AdpPlayer)
    (hl : lookupAssoc adp aid = some ap)
    (hp : positions_match pos (normalize_position ap.position) = false) :
    s3step adp nm pos acc aid = acc := by
  simp [s3step, hl, hp]

theorem s3step_keep_low (adp : List (String × AdpPlayer)) (nm pos : String)
    (acc : Option String × ℚ) (aid : String) (ap : AdpPlayer)
    (hl : lookupAssoc adp aid = some ap)
    (hc : ¬(3/4 ≤ calculate_name_similarity nm ap.name ∧
      acc.2 < calculate_name_similarity nm ap.name)) :
    s3step adp nm pos acc aid = acc := by
  by_cases hp : positions_match pos (normalize_position ap.position) = false
  · simp [s3step, hl, hp]
  · simp [s3step, hl, hp, hc]

theorem s3step_keep_none (adp : List (String × AdpPlayer)) (nm pos : String)
    (acc : Option String × ℚ) (aid : String)
    (hl : lookupAssoc adp aid = none) :
    s3step adp nm pos acc aid = acc := by
  simp [s3step, hl]

theorem s3step_cases (adp : List (String × AdpPlayer)) (nm pos : String)
    (acc : Option String × ℚ) (aid : String) :
    s3step adp nm pos acc aid = acc ∨
      (∃ ap, lookupAssoc adp aid = some ap ∧
        positions_match pos (normalize_position ap.position) = true ∧
        3/4 ≤ calculate_name_similarity nm ap.name ∧
        acc.2 < calculate_name_similarity nm ap.name ∧
        s3step adp nm pos acc aid = (some aid, calculate_name_similarity nm ap.name)) := by
  cases hl : lookupAssoc adp aid with
  | none => exact Or.inl (s3step_keep_none adp nm pos acc aid hl)
  | some ap =>
    by_cases hp : positions_match pos (normalize_position ap.position) = false
    · exact Or.inl (s3step_keep_incompatible adp nm pos acc aid ap hl hp)
    · by_cases hc : 3/4 ≤ calculate_name_similarity nm ap.name ∧
          acc.2 < calculate_name_similarity nm ap.name
      · exact Or.inr ⟨ap, rfl, Bool.of_not_eq_false hp, hc.1, hc.2,
          s3step_update adp nm pos acc aid ap hl (Bool.of_not_eq_false hp) hc⟩
      · exact Or.inl (s3step_keep_low adp nm pos acc aid ap hl hc)

theorem strategy3Best_inv (adp : List (String × AdpPlayer)) (un : List String)
    (nm pos : String) :
    (strategy3Best adp un nm pos).2 ≤ 1 ∧
      (∀ aid, (strategy3Best adp un nm pos).1 = some aid → aid ∈ un) := by
  unfold strategy3Best
  refine List.foldlRecOn
    (motive := fun acc => acc.2 ≤ 1 ∧ ∀ aid, acc.1 = some aid → aid ∈ un)
    un (s3step adp nm pos) ((none : Option String), (0 : ℚ))
    ⟨by norm_num, fun aid h => by cases h⟩ ?_
  intro acc hacc a ha
  rcases s3step_cases adp nm pos acc a with h | ⟨ap, _, _, _, _, heq⟩
  · rw [h]
    exact hacc
  · rw [heq]
    refine ⟨calculate_name_similarity_le_one nm ap.name, fun aid h2 => ?_⟩
    rw [Option.some.injEq] at h2
    exact h2 ▸ ha

theorem strategy3Select_spec (adp : List (String × AdpPlayer)) (un : List String)
    (nm pos : String) (aid : String) (sc : ℚ)
    (h : strategy3Select adp un nm pos = some (aid, sc)) :
    aid ∈ un ∧ 3/4 ≤ sc ∧ sc ≤ 1 := by
  obtain ⟨hle, hmem⟩ := strategy3Best_inv adp un nm pos
  unfold strategy3Select at h
  cases hb : (strategy3Best adp un nm pos).1 with
  | none =>
    rw [hb] at h
    cases h
  | some a =>
    rw [hb] at h
    split_ifs at h with hq
    rw [Option.some.injEq, Prod.mk.injEq] at h
    obtain ⟨h1, h2⟩ := h
    subst h1
    subst h2
    exact ⟨hmem a hb, hq, hle⟩

theorem strategy3Best_of_norm_empty (adp : List (String × AdpPlayer)) (un : List String)
    (nm pos : String) (h : normalize_name nm = "") :
    strategy3Best adp un nm pos = (none, 0) := by
  unfold strategy3Best
  refine List.foldlRecOn
    (motive := fun acc => acc = ((none : Option String), (0 : ℚ)))
    un (s3step adp nm pos) ((none : Option String), (0 : ℚ)) rfl ?_
  intro acc hacc a _
  rcases s3step_cases adp nm pos acc a with h2 | ⟨ap, _, _, hge, _, _⟩
  · rw [h2]; exact hacc
  · rw [calculate_name_similarity_of_norm_empty ap.name h] at hge
    norm_num at hge

theorem strategy3Select_of_norm_empty (adp : List (String × AdpPlayer)) (un : List String)
    (nm pos : String) (h : normalize_name nm = "") :
    strategy3Select adp un nm pos = none := by
  unfold strategy3Select
  rw [strategy3Best_of_norm_empty adp un nm pos h]

theorem s3_fold_stay_none (adp : List (String × AdpPlayer)) (nm pos : String)
    (un : List String)
    (h : ∀ aid ∈ un, ∀ ap, lookupAssoc adp aid = some ap →
      positions_match pos (normalize_position ap.position) = true →
      calculate_name_similarity nm ap.name < 3/4) :
    un.foldl (s3step adp nm pos) (none, 0) = (none, 0) := by
  refine List.foldlRecOn
    (motive := fun acc => acc = ((none : Option String), (0 : ℚ)))
    un (s3step adp nm pos) ((none : Option String), (0 : ℚ)) rfl ?_
  intro acc hacc a ha
  rcases s3step_cases adp nm pos acc a with h2 | ⟨ap, hl, hp, hge, _, _⟩
  · rw [h2]; exact hacc
  · exact absurd hge (not_le.mpr (h a ha ap hl hp))

theorem s3_fold_keep (adp : List (String × AdpPlayer)) (nm pos : String) :
    ∀ (un : List String) (start : Option String × ℚ),
      (∀ aid ∈ un, ∀ ap, lookupAssoc adp aid = some ap →
        positions_match pos (normalize_position ap.position) = true →
        calculate_name_similarity nm ap.name ≤ 3/4) →
      start.1 ≠ none → start.2 = 3/4 →
      (un.foldl (s3step adp nm pos) start).1 ≠ none ∧
        (un.foldl (s3step adp nm pos) start).2 = 3/4 := by
  intro un
  induction un with
  | nil => intro start _ h1 h2; exact ⟨h1, h2⟩
  | cons a rest ih =>
    intro start h h1 h2
    rw [List.foldl_cons]
    rcases s3step_cases adp nm pos start a with h3 | ⟨ap, hl, hp, _, hlt, _⟩
    · rw [h3]
      exact ih start (fun q hq => h q (List.mem_cons_of_mem _ hq)) h1 h2
    · rw [h2] at hlt
      exact absurd hlt (not_lt.mpr (h a (List.mem_cons_self _ _) ap hl hp))

theorem s3_fold_inv_below (adp : List (String × AdpPlayer)) (nm pos : String) :
    ∀ (un : List String) (start : Option String × ℚ),
      (∀ aid ∈ un, ∀ ap, lookupAssoc adp aid = some ap →
        positions_match pos (normalize_position ap.position) = true →
        calculate_name_similarity nm ap.name ≤ 3/4) →
      (start = (none, 0) ∨ (start.1 ≠ none ∧ start.2 = 3/4)) →
      (un.foldl (s3step adp nm pos) start = (none, 0) ∨
        ((un.foldl (s3step adp nm pos) start).1 ≠ none ∧
          (un.foldl (s3step adp nm pos) start).2 = 3/4)) := by
  intro un
  induction un with
  | nil => intro start _ hs; exact hs
  | cons a rest ih =>
    intro start h hs
    rw [List.foldl_cons]
    have hrest : ∀ aid ∈ rest, ∀ ap, lookupAssoc adp aid = some ap →
        positions_match pos (normalize_position ap.position) = true →
        calculate_name_similarity nm ap.name ≤ 3/4 :=
      fun q hq => h q (List.mem_cons_of_mem _ hq)
    rcases s3step_cases adp nm pos start a with h3 | ⟨ap, hl, hp, hge, _, heq⟩
    · rw [h3]
      exact ih start hrest hs
    · have hsim : calculate_name_similarity nm ap.name = 3/4 :=
        le_antisymm (h a (List.mem_cons_self _ _) ap hl hp) hge
      refine Or.inr (s3_fold_keep adp nm pos rest (s3step adp nm pos start a) hrest ?_ ?_)
      · rw [heq]
        exact fun hx => by cases hx
      · rw [heq]
        exact hsim

theorem s3step_hit (adp : List (String × AdpPlayer)) (nm pos : String)
    (start : Option String × ℚ) (aid : String) (ap : AdpPlayer)
    (hl : lookupAssoc adp aid = some ap)
    (hp : positions_match pos (normalize_position ap.position) = true)
    (hs : calculate_name_similarity nm ap.name = 3/4)
    (hstart : start = (none, 0) ∨ (start.1 ≠ none ∧ start.2 = 3/4)) :
    (s3step adp nm pos start aid).1 ≠ none ∧ (s3step adp nm pos start aid).2 = 3/4 := by
  rcases hstart with h1 | ⟨h1, h2⟩
  · subst h1
    have hc1 : 3/4 ≤ calculate_name_similarity nm ap.name := le_of_eq hs.symm
    have hc2 : (((none : Option String), (0 : ℚ))).2 < calculate_name_similarity nm ap.name := by
      rw [hs]
      norm_num
    rw [s3step_update adp nm pos (none, 0) aid ap hl hp ⟨hc1, hc2⟩]
    exact ⟨fun hx => (by cases hx), hs⟩
  · rw [s3step_keep_low adp nm pos start aid ap hl
      (fun hc => absurd hc.2 (by rw [h2, hs]; exact lt_irrefl _))]
    exact ⟨h1, h2⟩

/-- C6: the `0.75` fuzzy threshold is inclusive.  For a primary reaching
strategy 3, (a) if some position-compatible candidate scores exactly `0.75` and
no compatible candidate scores higher, a link with confidence exactly `0.75` is
produced; (b) if every compatible candidate scores strictly below `0.75`, no
candidate is selected and the primary stays unmatched. -/
theorem claim_C6 (adp : List (String × AdpPlayer)) (un : List String) (nm pos : String) :
    ((∃ aid ∈ un, ∃ ap, lookupAssoc adp aid = some ap ∧
        positions_match pos (normalize_position ap.position) = true ∧
        calculate_name_similarity nm ap.name = 3/4) →
      (∀ aid ∈ un, ∀ ap, lookupAssoc adp aid = some ap →
        positions_match pos (normalize_position ap.position) = true →
        calculate_name_similarity nm ap.name ≤ 3/4) →
      ∃ aid, strategy3Select adp un nm pos = some (aid, 3/4)) ∧
    ((∀ aid ∈ un, ∀ ap, lookupAssoc adp aid = some ap →
        positions_match pos (normalize_position ap.position) = true →
        calculate_name_similarity nm ap.name < 3/4) →
      strategy3Select adp un nm pos = none) := by
  constructor
  · rintro ⟨aid, haid, ap, hl, hp, hs⟩ hub
    obtain ⟨l1, l2, rfl⟩ := List.append_of_mem haid
    have hub1 : ∀ q ∈ l1, ∀ ap, lookupAssoc adp q = some ap →
        positions_match pos (normalize_position ap.position) = true →
        calculate_name_similarity nm ap.name ≤ 3/4 :=
      fun q hq => hub q (List.mem_append_left _ hq)
    have hub2 : ∀ q ∈ l2, ∀ ap, lookupAssoc adp q = some ap →
        positions_match pos (normalize_position ap.position) = true →
        calculate_name_similarity nm ap.name ≤ 3/4 :=
      fun q hq => hub q (List.mem_append_right _ (List.mem_cons_of_mem _ hq))
    have hA := s3_fold_inv_below adp nm pos l1 (none, 0) hub1 (Or.inl rfl)
    have hB := s3step_hit adp nm pos (l1.foldl (s3step adp nm pos) (none, 0)) aid ap hl hp hs hA
    have hC := s3_fold_keep adp nm pos l2
      (s3step adp nm pos (l1.foldl (s3step adp nm pos) (none, 0)) aid) hub2 hB.1 hB.2
    have hbest : strategy3Best adp (l1 ++ aid :: l2) nm pos =
        l2.foldl (s3step adp nm pos)
          (s3step adp nm pos (l1.foldl (s3step adp nm pos) (none, 0)) aid) := by
      unfold strategy3Best
      rw [List.foldl_append, List.foldl_cons]
    cases hend : (strategy3Best adp (l1 ++ aid :: l2) nm pos).1 with
    | none =>
      rw [hbest] at hend
      exact absurd hend hC.1
    | some x =>
      refine ⟨x, ?_⟩
      have h2 : (strategy3Best adp (l1 ++ aid :: l2) nm pos).2 = 3/4 := by
        rw [hbest]; exact hC.2
      unfold strategy3Select
      rw [hend, h2]
      norm_num
  · intro hlt
    have hbest : strategy3Best adp un nm pos = (none, 0) := by
      unfold strategy3Best
      exact s3_fold_stay_none adp nm pos un hlt
    unfold strategy3Select
    rw [hbest]


/-! ### Match-state invariants: claims C1, C2, C7 -/

theorem applyFound_none (pid : String) (st : MatchState) : applyFound pid none st = st := rfl

theorem mem_applyFound_links (pid : String) (found : Option (String × ℚ × MatchStrategy))
    (st : MatchState) (l : MatchLink) (h : l ∈ (applyFound pid found st).links) :
    l ∈ st.links ∨ ∃ cid conf strat, found = some (cid, conf, strat) ∧
      l = ⟨pid, cid, conf, strat⟩ := by
  cases found with
  | none => exact Or.inl h
  | some t =>
    obtain ⟨cid, conf, strat⟩ := t
    rcases List.mem_append.mp h with h1 | h1
    · exact Or.inl h1
    · exact Or.inr ⟨cid, conf, strat, rfl, List.mem_singleton.mp h1⟩

theorem strategy1Find_mem (adp : List (String × AdpPlayer)) (un : List String)
    (sp : SleeperPlayer) (cid : String) (h : strategy1Find adp un sp = some cid) :
    cid ∈ un := by
  simp only [strategy1Find, Option.map_eq_some'] at h
  obtain ⟨a, ha, rfl⟩ := h
  have hp := List.find?_some ha
  rw [Bool.and_eq_true] at hp
  simpa using hp.1

theorem strategy2Find_mem (adp : List (String × AdpPlayer)) (un : List String)
    (nm pos : String) (cid : String) (h : strategy2Find adp un nm pos = some cid) :
    cid ∈ un := by
  unfold strategy2Find at h
  exact List.mem_of_find?_eq_some h

theorem nodup_concat {α : Type} (l : List α) (a : α) (h1 : l.Nodup) (h2 : a ∉ l) :
    (l ++ [a]).Nodup := by
  rw [List.nodup_append]
  exact ⟨h1, List.nodup_singleton a, fun b hb hba => h2 ((List.mem_singleton.mp hba) ▸ hb)⟩

/-- One update step of any strategy preserves the resolution invariant, and
keeps the invariant hypotheses available for the remaining primaries. -/
theorem applyFound_preserves_matchInv (st : MatchState) (pid cid : String) (conf : ℚ)
    (strat : MatchStrategy) (hinv : MatchInv st) (hcid : cid ∈ st.unmatchedAdp)
    (hfresh : ∀ l ∈ st.links, l.primaryId ≠ pid) :
    MatchInv (applyFound pid (some (cid, conf, strat)) st) := by
  obtain ⟨hp, hc, hps, hcs, hns, hna⟩ := hinv
  refine ⟨?_, ?_, ?_, ?_, hns.erase pid, hna.erase cid⟩
  · rw [show (applyFound pid (some (cid, conf, strat)) st).links =
      st.links ++ [⟨pid, cid, conf, strat⟩] from rfl, List.map_append]
    refine nodup_concat _ _ hp ?_
    intro hmem
    rcases List.mem_map.mp hmem with ⟨l, hl, hpid⟩
    exact hfresh l hl hpid
  · rw [show (applyFound pid (some (cid, conf, strat)) st).links =
      st.links ++ [⟨pid, cid, conf, strat⟩] from rfl, List.map_append]
    refine nodup_concat _ _ hc ?_
    intro hmem
    rcases List.mem_map.mp hmem with ⟨l, hl, hcid2⟩
    exact hcs l hl (hcid2 ▸ hcid)
  · intro l hl
    rcases List.mem_append.mp hl with h1 | h1
    · exact fun hm => hps l h1 (List.erase_subset _ _ hm)
    · rw [List.mem_singleton.mp h1]
      exact hns.not_mem_erase
  · intro l hl
    rcases List.mem_append.mp hl with h1 | h1
    · exact fun hm => hcs l h1 (List.erase_subset _ _ hm)
    · rw [List.mem_singleton.mp h1]
      exact hna.not_mem_erase

/-- Folding any per-primary step function that either leaves the state alone or
records a match for the current primary against a still-unmatched candidate
preserves the resolution invariant, provided the processed primary keys are
duplicate-free and fresh. -/
theorem foldl_preserves_matchInv {α : Type} (key : α → String)
    (step : MatchState → α → MatchState)
    (hstep : ∀ st x, step st x = st ∨ ∃ cid conf strat, cid ∈ st.unmatchedAdp ∧
      step st x = applyFound (key x) (some (cid, conf, strat)) st) :
    ∀ (xs : List α) (st : MatchState), MatchInv st → (xs.map key).Nodup →
      (∀ l ∈ st.links, l.primaryId ∉ xs.map key) → MatchInv (xs.foldl step st) := by
  intro xs
  induction xs with
  | nil => intro st hinv _ _; exact hinv
  | cons x rest ih =>
    intro st hinv hnd hfresh
    rw [List.foldl_cons]
    rw [List.map_cons, List.nodup_cons] at hnd
    rcases hstep st x with h | ⟨cid, conf, strat, hcid, h⟩
    · rw [h]
      exact ih st hinv hnd.2 (fun l hl hm => hfresh l hl (List.mem_cons_of_mem _ hm))
    · rw [h]
      have hfresh1 : ∀ l ∈ st.links, l.primaryId ≠ key x :=
        fun l hl hpid => hfresh l hl (hpid ▸ List.mem_cons_self _ _)
      refine ih _ (applyFound_preserves_matchInv st (key x) cid conf strat hinv hcid hfresh1)
        hnd.2 ?_
      intro l hl hm
      rcases List.mem_append.mp hl with h1 | h1
      · exact hfresh l h1 (List.mem_cons_of_mem _ hm)
      · rw [List.mem_singleton.mp h1] at hm
        exact hnd.1 hm

theorem strategy1Pass_step (adp : List (String × AdpPlayer)) (st : MatchState)
    (p : String × SleeperPlayer) :
    applyFound p.1 ((strategy1Find adp st.unmatchedAdp p.2).map
      (fun cid => (cid, (1 : ℚ), MatchStrategy.exact_name_team_position))) st = st ∨
    ∃ cid conf strat, cid ∈ st.unmatchedAdp ∧
      applyFound p.1 ((strategy1Find adp st.unmatchedAdp p.2).map
        (fun cid => (cid, (1 : ℚ), MatchStrategy.exact_name_team_position))) st =
      applyFound p.1 (some (cid, conf, strat)) st := by
  cases hf : strategy1Find adp st.unmatchedAdp p.2 with
  | none => exact Or.inl rfl
  | some cid =>
    exact Or.inr ⟨cid, 1, MatchStrategy.exact_name_team_position,
      strategy1Find_mem adp st.unmatchedAdp p.2 cid hf, rfl⟩

theorem strategy1Pass_preserves (players : List (String × SleeperPlayer))
    (adp : List (String × AdpPlayer)) (st : MatchState) (hinv : MatchInv st)
    (hnd : (players.map Prod.fst).Nodup)
    (hfresh : ∀ l ∈ st.links, l.primaryId ∉ players.map Prod.fst) :
    MatchInv (strategy1Pass players adp st) := by
  unfold strategy1Pass
  exact foldl_preserves_matchInv Prod.fst _
    (fun st2 p => strategy1Pass_step adp st2 p) players st hinv hnd hfresh

theorem strategy2Pass_step (players : List (String × SleeperPlayer))
    (adp : List (String × AdpPlayer)) (st : MatchState) (sid : String) :
    (match lookupAssoc players sid with
      | none => st
      | some sp =>
        let sleeperName := normalize_name sp.full_name
        let sleeperPos := normalize_position sp.position
        if sleeperName = "" then st
        else
          applyFound sid ((strategy2Find adp st.unmatchedAdp sleeperName sleeperPos).map
            (fun cid => (cid, (9/10 : ℚ), MatchStrategy.exact_name_position))) st) = st ∨
    ∃ cid conf strat, cid ∈ st.unmatchedAdp ∧
      (match lookupAssoc players sid with
        | none => st
        | some sp =>
          let sleeperName := normalize_name sp.full_name
          let sleeperPos := normalize_position sp.position
          if sleeperName = "" then st
          else
            applyFound sid ((strategy2Find adp st.unmatchedAdp sleeperName sleeperPos).map
              (fun cid => (cid, (9/10 : ℚ), MatchStrategy.exact_name_position))) st) =
        applyFound sid (some (cid, conf, strat)) st := by
  cases hlook : lookupAssoc players sid with
  | none => exact Or.inl rfl
  | some sp =>
    by_cases hn : normalize_name sp.full_name = ""
    · exact Or.inl (by simp [hn])
    · cases hf : strategy2Find adp st.unmatchedAdp (normalize_name sp.full_name)
          (normalize_position sp.position) with
      | none =>
        exact Or.inl (by simp [hn, hf, applyFound_none])
      | some cid =>
        exact Or.inr ⟨cid, 9/10, MatchStrategy.exact_name_position,
          strategy2Find_mem adp st.unmatchedAdp _ _ cid hf, by simp [hn, hf]⟩

theorem strategy2Pass_preserves (players : List (String × SleeperPlayer))
    (adp : List (String × AdpPlayer)) (st : MatchState) (hinv : MatchInv st) :
    MatchInv (strategy2Pass players adp st) := by
  unfold strategy2Pass
  refine foldl_preserves_matchInv (fun s => s) _ ?_ st.unmatchedSleeper st hinv ?_ ?_
  · intro st2 sid
    exact strategy2Pass_step players adp st2 sid
  · rw [List.map_id']
    exact hinv.2.2.2.2.1
  · rw [List.map_id']
    exact hinv.2.2.1

theorem strategy3Pass_step (players : List (String × SleeperPlayer))
    (adp : List (String × AdpPlayer)) (st : MatchState) (sid : String) :
    (match lookupAssoc players sid with
      | none => st
      | some sp =>
        if sp.full_name = "" then st
        else
          let sleeperPos := normalize_position sp.position
          applyFound sid ((strategy3Select adp st.unmatchedAdp sp.full_name sleeperPos).map
            (fun r => (r.1, r.2, MatchStrategy.fuzzy_name_position))) st) = st ∨
    ∃ cid conf strat, cid ∈ st.unmatchedAdp ∧
      (match lookupAssoc players sid with
        | none => st
        | some sp =>
          if sp.full_name = "" then st
          else
            let sleeperPos := normalize_position sp.position
            applyFound sid ((strategy3Select adp st.unmatchedAdp sp.full_name sleeperPos).map
              (fun r => (r.1, r.2, MatchStrategy.fuzzy_name_position))) st) =
        applyFound sid (some (cid, conf, strat)) st := by
  cases hlook : lookupAssoc players sid with
  | none => exact Or.inl rfl
  | some sp =>
    by_cases hn : sp.full_name = ""
    · exact Or.inl (by simp [hn])
    · cases hf : strategy3Select adp st.unmatchedAdp sp.full_name
          (normalize_position sp.position) with
      | none =>
        exact Or.inl (by simp [hn, hf, applyFound_none])
      | some r =>
        obtain ⟨cid, sc⟩ := r
        exact Or.inr ⟨cid, sc, MatchStrategy.fuzzy_name_position,
          (strategy3Select_spec adp st.unmatchedAdp _ _ cid sc hf).1, by simp [hn, hf]⟩

theorem strategy3Pass_preserves (players : List (String × SleeperPlayer))
    (adp : List (String × AdpPlayer)) (st : MatchState) (hinv : MatchInv st) :
    MatchInv (strategy3Pass players adp st) := by
  unfold strategy3Pass
  refine foldl_preserves_matchInv (fun s => s) _ ?_ st.unmatchedSleeper st hinv ?_ ?_
  · intro st2 sid
    exact strategy3Pass_step players adp st2 sid
  · rw [List.map_id']
    exact hinv.2.2.2.2.1
  · rw [List.map_id']
    exact hinv.2.2.1

/-- C1: in every resolution pass over duplicate-free primary and candidate key
sets, the produced links form a partial one-to-one pairing: no primary key is
linked to more than one candidate and no candidate key is linked to more than
one primary, across all three strategies. -/
theorem claim_C1 (players : List (String × SleeperPlayer))
    (adp : List (String × AdpPlayer))
    (hp : (players.map Prod.fst).Nodup) (ha : (adp.map Prod.fst).Nodup) :
    ((resolvePass players adp).links.map MatchLink.primaryId).Nodup ∧
    ((resolvePass players adp).links.map MatchLink.candidateId).Nodup := by
  have hinv0 : MatchInv ⟨[], players.map Prod.fst, adp.map Prod.fst⟩ := by
    refine ⟨List.nodup_nil, List.nodup_nil, ?_, ?_, hp, ha⟩
    · intro l hl; cases hl
    · intro l hl; cases hl
  have h1 := strategy1Pass_preserves players adp _ hinv0 hp (fun l hl => by cases hl)
  have h2 := strategy2Pass_preserves players adp _ h1
  have h3 := strategy3Pass_preserves players adp _ h2
  exact ⟨h3.1, h3.2.1⟩


/-! ### Per-link properties: claims C2 and C7 -/

/-- Folding a per-primary step function each of whose steps only appends links
satisfying `P` yields only links satisfying `P` (beyond those already there). -/
theorem foldl_links_prop {α : Type} (P : MatchLink → Prop)
    (step : MatchState → α → MatchState)
    (hstep : ∀ st x, ∀ l ∈ (step st x).links, l ∈ st.links ∨ P l) :
    ∀ (xs : List α) (st : MatchState), (∀ l ∈ st.links, P l) →
      ∀ l ∈ (xs.foldl step st).links, P l := by
  intro xs
  induction xs with
  | nil => intro st h l hl; exact h l hl
  | cons x rest ih =>
    intro st h l hl
    rw [List.foldl_cons] at hl
    refine ih (step st x) ?_ l hl
    intro l2 hl2
    rcases hstep st x l2 hl2 with h2 | h2
    · exact h l2 h2
    · exact h2

theorem strategy1Pass_step_links (adp : List (String × AdpPlayer)) (st : MatchState)
    (p : String × SleeperPlayer) (l : MatchLink)
    (hl : l ∈ (applyFound p.1 ((strategy1Find adp st.unmatchedAdp p.2).map
      (fun cid => (cid, (1 : ℚ), MatchStrategy.exact_name_team_position))) st).links) :
    l ∈ st.links ∨ ∃ cid, l = ⟨p.1, cid, 1, MatchStrategy.exact_name_team_position⟩ := by
  rcases mem_applyFound_links p.1 _ st l hl with h | ⟨cid, conf, strat, heq, hleq⟩
  · exact Or.inl h
  · rw [Option.map_eq_some'] at heq
    obtain ⟨cid0, hf, heq2⟩ := heq
    simp only [Prod.mk.injEq] at heq2
    obtain ⟨rfl, rfl, rfl⟩ := heq2
    exact Or.inr ⟨cid0, hleq⟩

theorem strategy1Pass_links (players : List (String × SleeperPlayer))
    (adp : List (String × AdpPlayer)) (st : MatchState) (P : MatchLink → Prop)
    (hP : ∀ pid cid, P ⟨pid, cid, 1, MatchStrategy.exact_name_team_position⟩)
    (hst : ∀ l ∈ st.links, P l) :
    ∀ l ∈ (strategy1Pass players adp st).links, P l := by
  unfold strategy1Pass
  refine foldl_links_prop P _ ?_ players st hst
  intro st2 p l hl
  rcases strategy1Pass_step_links adp st2 p l hl with h | ⟨cid, rfl⟩
  · exact Or.inl h
  · exact Or.inr (hP p.1 cid)

theorem strategy2Pass_step_links (players : List (String × SleeperPlayer))
    (adp : List (String × AdpPlayer)) (st : MatchState) (sid : String) (l : MatchLink)
    (hl : l ∈ (match lookupAssoc players sid with
      | none => st
      | some sp =>
        let sleeperName := normalize_name sp.full_name
        let sleeperPos := normalize_position sp.position
        if sleeperName = "" then st
        else
          applyFound sid ((strategy2Find adp st.unmatchedAdp sleeperName sleeperPos).map
            (fun cid => (cid, (9/10 : ℚ), MatchStrategy.exact_name_position))) st).links) :
    l ∈ st.links ∨ ∃ sp cid, lookupAssoc players sid = some sp ∧
      ¬ normalize_name sp.full_name = "" ∧
      l = ⟨sid, cid, 9/10, MatchStrategy.exact_name_position⟩ := by
  revert hl
  cases hlook : lookupAssoc players sid with
  | none => exact fun hl => Or.inl hl
  | some sp =>
    intro hl
    by_cases hn : normalize_name sp.full_name = ""
    · simp only [hn] at hl
      simp at hl
      exact Or.inl hl
    · simp [hn] at hl
      rcases mem_applyFound_links sid _ st l hl with h | ⟨cid, conf, strat, heq, hleq⟩
      · exact Or.inl h
      · rw [Option.map_eq_some'] at heq
        obtain ⟨cid0, hf, heq2⟩ := heq
        simp only [Prod.mk.injEq] at heq2
        obtain ⟨rfl, rfl, rfl⟩ := heq2
        exact Or.inr ⟨sp, cid0, rfl, hn, hleq⟩

theorem strategy2Pass_links (players : List (String × SleeperPlayer))
    (adp : List (String × AdpPlayer)) (st : MatchState) (P : MatchLink → Prop)
    (hP : ∀ sid cid sp, lookupAssoc players sid = some sp →
      ¬ normalize_name sp.full_name = "" →
      P ⟨sid, cid, 9/10, MatchStrategy.exact_name_position⟩)
    (hst : ∀ l ∈ st.links, P l) :
    ∀ l ∈ (strategy2Pass players adp st).links, P l := by
  unfold strategy2Pass
  refine foldl_links_prop P _ ?_ st.unmatchedSleeper st hst
  intro st2 sid l hl
  rcases strategy2Pass_step_links players adp st2 sid l hl with h | ⟨sp, cid, hlook, hn, rfl⟩
  · exact Or.inl h
  · exact Or.inr (hP sid cid sp hlook hn)

theorem strategy3Pass_step_links (players : List (String × SleeperPlayer))
    (adp : List (String × AdpPlayer)) (st : MatchState) (sid : String) (l : MatchLink)
    (hl : l ∈ (match lookupAssoc players sid with
      | none => st
      | some sp =>
        if sp.full_name = "" then st
        else
          let sleeperPos := normalize_position sp.position
          applyFound sid ((strategy3Select adp st.unmatchedAdp sp.full_name sleeperPos).map
            (fun r : String × ℚ => (r.1, r.2, MatchStrategy.fuzzy_name_position))) st).links) :
    l ∈ st.links ∨ ∃ sp sc cid, lookupAssoc players sid = some sp ∧
      ¬ normalize_name sp.full_name = "" ∧ 3/4 ≤ sc ∧ sc ≤ 1 ∧
      l = ⟨sid, cid, sc, MatchStrategy.fuzzy_name_position⟩ := by
  revert hl
  cases hlook : lookupAssoc players sid with
  | none => exact fun hl => Or.inl hl
  | some sp =>
    intro hl
    by_cases hn : sp.full_name = ""
    · simp only [hn] at hl
      simp at hl
      exact Or.inl hl
    · simp [hn] at hl
      rcases mem_applyFound_links sid _ st l hl with h | ⟨cid, conf, strat, heq, hleq⟩
      · exact Or.inl h
      · rw [Option.map_eq_some'] at heq
        obtain ⟨r, hsel, heq2⟩ := heq
        obtain ⟨cid0, sc⟩ := r
        simp only [Prod.mk.injEq] at heq2
        obtain ⟨rfl, rfl, rfl⟩ := heq2
        have hnn : ¬ normalize_name sp.full_name = "" := fun hne => by
          rw [strategy3Select_of_norm_empty adp st.unmatchedAdp sp.full_name
            (normalize_position sp.position) hne] at hsel
          cases hsel
        obtain ⟨hmem, h34, hle1⟩ := strategy3Select_spec adp st.unmatchedAdp sp.full_name
          (normalize_position sp.position) cid0 sc hsel
        exact Or.inr ⟨sp, sc, cid0, rfl, hnn, h34, hle1, hleq⟩

theorem strategy3Pass_links (players : List (String × SleeperPlayer))
    (adp : List (String × AdpPlayer)) (st : MatchState) (P : MatchLink → Prop)
    (hP : ∀ sid cid sc sp, lookupAssoc players sid = some sp →
      ¬ normalize_name sp.full_name = "" → 3/4 ≤ sc → sc ≤ 1 →
      P ⟨sid, cid, sc, MatchStrategy.fuzzy_name_position⟩)
    (hst : ∀ l ∈ st.links, P l) :
    ∀ l ∈ (strategy3Pass players adp st).links, P l := by
  unfold strategy3Pass
  refine foldl_links_prop P _ ?_ st.unmatchedSleeper st hst
  intro st2 sid l hl
  rcases strategy3Pass_step_links players adp st2 sid l hl with
    h | ⟨sp, sc, cid, hlook, hn, h34, hle1, rfl⟩
  · exact Or.inl h
  · exact Or.inr (hP sid cid sc sp hlook hn h34 hle1)

/-- The combined per-link guarantee of one resolution pass: each strategy tags
its links with its fixed confidence (a score in `[0.75, 1]` for strategy 3),
and strategies 2 and 3 never link a primary whose normalized name is empty. -/
theorem resolvePass_links (players : List (String × SleeperPlayer))
    (adp : List (String × AdpPlayer)) :
    ∀ l ∈ (resolvePass players adp).links,
      (l.strategy = MatchStrategy.exact_name_team_position → l.confidence = 1) ∧
      (l.strategy = MatchStrategy.exact_name_position → l.confidence = 9/10 ∧
        ∀ sp, lookupAssoc players l.primaryId = some sp →
          ¬ normalize_name sp.full_name = "") ∧
      (l.strategy = MatchStrategy.fuzzy_name_position →
        (3/4 ≤ l.confidence ∧ l.confidence ≤ 1) ∧
        ∀ sp, lookupAssoc players l.primaryId = some sp →
          ¬ normalize_name sp.full_name = "") := by
  unfold resolvePass
  refine strategy3Pass_links players adp _ _ ?_
    (strategy2Pass_links players adp _ _ ?_
      (strategy1Pass_links players adp _ _ ?_ ?_))
  · intro sid cid sc sp hlook hn h34 hle1
    refine ⟨?_, ?_, ?_⟩
    · intro h
      exact absurd h (by simp)
    · intro h
      exact absurd h (by simp)
    · intro h
      refine ⟨⟨h34, hle1⟩, ?_⟩
      intro sp2 hsp2
      have hsp2b : lookupAssoc players sid = some sp2 := hsp2
      rw [hlook] at hsp2b
      injection hsp2b with h2
      exact h2 ▸ hn
  · intro sid cid sp hlook hn
    refine ⟨?_, ?_, ?_⟩
    · intro h
      exact absurd h (by simp)
    · intro h
      refine ⟨rfl, ?_⟩
      intro sp2 hsp2
      have hsp2b : lookupAssoc players sid = some sp2 := hsp2
      rw [hlook] at hsp2b
      injection hsp2b with h2
      exact h2 ▸ hn
    · intro h
      exact absurd h (by simp)
  · intro pid cid
    refine ⟨?_, ?_, ?_⟩
    · intro h
      rfl
    · intro h
      exact absurd h (by simp)
    · intro h
      exact absurd h (by simp)
  · intro l hl
    exact absurd hl (List.not_mem_nil l)

/-- C2 (amended): in every resolution pass, every
`EXACT_NAME_TEAM_POSITION` link has confidence `1.0` and every
`EXACT_NAME_POSITION` link has confidence `0.9`, but an accepted
`FUZZY_NAME_POSITION` link has confidence anywhere in `[0.75, 1]`: the score
boosts of `calculate_name_similarity` can push a fuzzy confidence above `0.9`,
up to `1.0`. -/
theorem claim_C2_amended (players : List (String × SleeperPlayer))
    (adp : List (String × AdpPlayer)) :
    ∀ l ∈ (resolvePass players adp).links,
      (l.strategy = MatchStrategy.exact_name_team_position → l.confidence = 1) ∧
      (l.strategy = MatchStrategy.exact_name_position → l.confidence = 9/10) ∧
      (l.strategy = MatchStrategy.fuzzy_name_position →
        3/4 ≤ l.confidence ∧ l.confidence ≤ 1) := by
  intro l hl
  obtain ⟨h1, h2, h3⟩ := resolvePass_links players adp l hl
  exact ⟨h1, fun h => (h2 h).1, fun h => (h3 h).1⟩

/-- C7 (amended): a primary record whose normalized name is empty is indeed
skipped by strategies 2 and 3 (any link it receives can only come from
strategy 1), but strategy 1 has no empty-name guard, so such a record can
still receive a full-confidence `EXACT_NAME_TEAM_POSITION` link; no call
fails on such input (all functions are total). -/
theorem claim_C7_amended (players : List (String × SleeperPlayer))
    (adp : List (String × AdpPlayer)) :
    ∀ l ∈ (resolvePass players adp).links, ∀ sp,
      lookupAssoc players l.primaryId = some sp →
      normalize_name sp.full_name = "" →
      l.strategy = MatchStrategy.exact_name_team_position := by
  intro l hl sp hsp hne
  obtain ⟨h1, h2, h3⟩ := resolvePass_links players adp l hl
  cases hstrat : l.strategy with
  | exact_name_team_position => rfl
  | exact_name_position => exact absurd hne ((h2 hstrat).2 sp hsp)
  | fuzzy_name_position => exact absurd hne ((h3 hstrat).2 sp hsp)

end MatchEngineLemmas

/-! ## Concrete evaluation section

`Rat.mul`, `Rat.add`, `Rat.inv` and `Rat.sub` are `@[irreducible]` upstream,
which blocks kernel evaluation of concrete rational scores by `decide`; the
attribute below restores the default reducibility for the remaining
declarations, which evaluate the embedded code at concrete inputs. -/

attribute [local semireducible] Rat.mul Rat.add Rat.inv Rat.sub

/-- Witness for C3: two concrete weekly records for a fresh key give
`games_played = 2` and summed convention totals. -/
theorem claim_C3_witness :
    ∃ e, ([⟨"n", "QB", ⟨⟨none, none, none, none, none⟩, ⟨none, none, none⟩,
          ⟨none, none, none, none⟩, ⟨some 10, some 12, some 11⟩⟩⟩,
        ⟨"n", "QB", ⟨⟨none, none, none, none, none⟩, ⟨none, none, none⟩,
          ⟨none, none, none, none⟩, ⟨some 2, none, some 3⟩⟩⟩] :
          List PlayerPerformance).foldl
        (fun st p => update_season_totals st "k" p) (fun _ => none) "k" = some e ∧
      e.games_played = 2 ∧
      e.fantasy.points_standard = 12 ∧ e.fantasy.points_ppr = 12 ∧
      e.fantasy.points_half_ppr = 14 := by
  obtain ⟨e, he, hg, hs, hp, hh⟩ := claim_C3 (fun _ => none) "k"
    [⟨"n", "QB", ⟨⟨none, none, none, none, none⟩, ⟨none, none, none⟩,
        ⟨none, none, none, none⟩, ⟨some 10, some 12, some 11⟩⟩⟩,
     ⟨"n", "QB", ⟨⟨none, none, none, none, none⟩, ⟨none, none, none⟩,
        ⟨none, none, none, none⟩, ⟨some 2, none, some 3⟩⟩⟩] rfl (by simp)
  refine ⟨e, he, hg, ?_, ?_, ?_⟩
  · rw [hs]; decide
  · rw [hp]; decide
  · rw [hh]; decide
/-- Witness for C6: a single candidate scoring exactly `0.75`
(`calculate_name_similarity "abcd" "abce" = 3/4`) is accepted with that
confidence, and a pool whose only candidate scores `0` yields no selection. -/
theorem claim_C6_witness :
    (∃ aid, strategy3Select [("a1", ⟨"abce", "KC", "QB"⟩)] ["a1"] "abcd" "QB"
      = some (aid, 3/4)) ∧
    strategy3Select [("a1", ⟨"wxyz", "KC", "QB"⟩)] ["a1"] "abcd" "QB" = none := by
  constructor
  · exact (claim_C6 [("a1", ⟨"abce", "KC", "QB"⟩)] ["a1"] "abcd" "QB").1
      ⟨"a1", by decide, ⟨"abce", "KC", "QB"⟩, by decide, by decide, by decide⟩
      (by decide)
  · exact (claim_C6 [("a1", ⟨"wxyz", "KC", "QB"⟩)] ["a1"] "abcd" "QB").2 (by decide)


/-- Witness for C1: a concrete pass over two primaries and one candidate
produces duplicate-free primary and candidate link keys. -/
theorem claim_C1_witness :
    ((([("s1", (⟨"john smith", "KC", "QB"⟩ : SleeperPlayer)),
        ("s2", (⟨"bob jones", "KC", "RB"⟩ : SleeperPlayer))]).map Prod.fst).Nodup ∧
      (([("a1", (⟨"John Smith", "KC", "QB"⟩ : AdpPlayer))]).map Prod.fst).Nodup) ∧
    (((resolvePass [("s1", ⟨"john smith", "KC", "QB"⟩), ("s2", ⟨"bob jones", "KC", "RB"⟩)]
        [("a1", ⟨"John Smith", "KC", "QB"⟩)]).links.map MatchLink.primaryId).Nodup ∧
     ((resolvePass [("s1", ⟨"john smith", "KC", "QB"⟩), ("s2", ⟨"bob jones", "KC", "RB"⟩)]
        [("a1", ⟨"John Smith", "KC", "QB"⟩)]).links.map MatchLink.candidateId).Nodup) :=
  ⟨⟨by decide, by decide⟩,
   claim_C1 [("s1", ⟨"john smith", "KC", "QB"⟩), ("s2", ⟨"bob jones", "KC", "RB"⟩)]
     [("a1", ⟨"John Smith", "KC", "QB"⟩)] (by decide) (by decide)⟩

/-- C2 is refuted: the boosts of `calculate_name_similarity` can lift an
accepted fuzzy confidence above `0.9` (here `"john smith"` vs `"jon smith"`
scores `18/19 + 0.2`, capped at `1.0`), breaking the claimed
`1.0 ≥ 0.9 ≥ fuzzy` ordering. -/
theorem claim_C2_counterexample :
    ∃ l ∈ (resolvePass [("s1", ⟨"john smith", "", "QB"⟩)]
        [("a1", ⟨"jon smith", "", "QB"⟩)]).links,
      l.strategy = MatchStrategy.fuzzy_name_position ∧ 9/10 < l.confidence ∧
        l.confidence = 1 := by
  decide

/-- Witness for C2 (amended): the amended bounds applied to the concrete fuzzy
link of confidence `1`. -/
theorem claim_C2_witness :
    ((⟨"s1", "a1", 1, MatchStrategy.fuzzy_name_position⟩ : MatchLink) ∈
      (resolvePass [("s1", ⟨"john smith", "", "QB"⟩)]
        [("a1", ⟨"jon smith", "", "QB"⟩)]).links) ∧
    ((3 : ℚ)/4 ≤ 1 ∧ (1 : ℚ) ≤ 1) :=
  ⟨by decide,
   (claim_C2_amended [("s1", ⟨"john smith", "", "QB"⟩)]
      [("a1", ⟨"jon smith", "", "QB"⟩)]
      ⟨"s1", "a1", 1, MatchStrategy.fuzzy_name_position⟩ (by decide)).2.2 rfl⟩

/-- C7 is refuted: strategy 1 has no empty-name guard, so two records whose
names are both empty but whose team and position agree are linked with full
confidence `1.0` by `EXACT_NAME_TEAM_POSITION`, not a lower-confidence or
absent match. -/
theorem claim_C7_counterexample :
    normalize_name "" = "" ∧
    (resolvePass [("s1", ⟨"", "KC", "QB"⟩)] [("a1", ⟨"", "KC", "QB"⟩)]).links =
      [⟨"s1", "a1", 1, MatchStrategy.exact_name_team_position⟩] := by
  decide

/-- Witness for C7 (amended): the concrete empty-name link is classified as a
strategy-1 link. -/
theorem claim_C7_witness :
    ((⟨"s1", "a1", 1, MatchStrategy.exact_name_team_position⟩ : MatchLink) ∈
        (resolvePass [("s1", ⟨"", "KC", "QB"⟩)] [("a1", ⟨"", "KC", "QB"⟩)]).links ∧
      lookupAssoc [("s1", (⟨"", "KC", "QB"⟩ : SleeperPlayer))] "s1" =
        some ⟨"", "KC", "QB"⟩ ∧
      normalize_name "" = "") ∧
    (⟨"s1", "a1", 1, MatchStrategy.exact_name_team_position⟩ : MatchLink).strategy =
      MatchStrategy.exact_name_team_position :=
  ⟨⟨by decide, by decide, by decide⟩,
   claim_C7_amended [("s1", ⟨"", "KC", "QB"⟩)] [("a1", ⟨"", "KC", "QB"⟩)]
     ⟨"s1", "a1", 1, MatchStrategy.exact_name_team_position⟩ (by decide)
     ⟨"", "KC", "QB"⟩ (by decide) (by decide)⟩
